import Mathlib

/-!
# Tetris Stack: circular queue of upcoming pieces (`tetris.c`)

A shallow embedding of `tetris.c` and the properties of its circular queue.

Conventions of the embedding.

* A C `int` is a value of `CInt`: a mathematical integer together with the proof that it
  lies in the 32-bit range.  Arithmetic on `CInt` takes the two's-complement result
  (`wrap`), so every operation of the program is defined on every `int`.
* `elementos` is an array of exactly `CAPACIDADE_FILA` slots.  A read or write through an
  `int` index outside `[0, CAPACIDADE_FILA)` has no meaning in C; the embedded functions
  return `none` there, and `some _` whenever every access is within bounds.
* What the program prints is returned as a list of `Saida` values, one per `printf`.
* `rand()` is an external collaborator: the value it delivers on a call is an argument
  (`r : Nat`, `rand` never returns a negative number).  `srand` only influences which
  values `rand` delivers, so it does not appear in the state.
-/

namespace Tetris

/-! ## C integers -/

/-- Two's-complement reduction of a mathematical integer to the 32-bit `int` range. -/
def wrap (v : Int) : Int := (v + 2147483648) % 4294967296 - 2147483648

/-- A C `int`: an integer in `[-2^31, 2^31 - 1]`. -/
structure CInt where
  val : Int
  range : -2147483648 ≤ val ∧ val ≤ 2147483647
deriving DecidableEq

namespace CInt

/-- Conversion of a mathematical integer to `int` (identity on the `int` range). -/
def ofInt (v : Int) : CInt := ⟨wrap v, by unfold wrap; omega⟩

instance (n : Nat) : OfNat CInt n := ⟨ofInt n⟩

instance : Inhabited CInt := ⟨ofInt 0⟩

/-- The C operator `+` on `int`. -/
def add (a b : CInt) : CInt := ofInt (a.val + b.val)

/-- The C operator `-` on `int`. -/
def sub (a b : CInt) : CInt := ofInt (a.val - b.val)

/-- The C operator `%` on `int`: the remainder has the sign of the dividend. -/
def resto (a b : CInt) : CInt := ofInt (Int.tmod a.val b.val)

instance : Add CInt := ⟨add⟩
instance : Sub CInt := ⟨sub⟩

end CInt

/-- Largest value of an `int`. -/
def INT_MAX : Int := 2147483647

/-! ## Data structures -/

/-- `Peca`: a piece, `int id` and `char nome[2]` (a string of at most one character and
its terminator). -/
structure Peca where
  id : CInt
  nome : String
deriving DecidableEq

/-- `#define CAPACIDADE_FILA 5`. -/
abbrev CAPACIDADE_FILA : Nat := 5

/-- `FilaCircular`: the array of slots, the index of the first element, the index of the
next free slot and the number of elements. -/
structure FilaCircular where
  elementos : Fin CAPACIDADE_FILA → Peca
  frente : CInt
  tras : CInt
  tamanho : CInt

/-- One line (one `printf`) of the program's output. -/
inductive Saida where
  /-- Line "Erro: A fila está cheia. Impossível enfileirar." -/
  | erroFilaCheia
  /-- Line "Erro: A fila está vazia. Impossível desenfileirar." -/
  | erroFilaVazia
  /-- Line "--- Fila de Peças Futuras (Tamanho: %d/%d) ---" -/
  | cabecalho (tamanho : CInt) (capacidade : Nat)
  /-- Line "[VAZIA]" -/
  | vazia
  /-- Line "Frente -> " -/
  | inicioLista
  /-- Line "| %s (ID:%d) " -/
  | item (p : Peca)
  /-- Line " <- Fim (Trás)" -/
  | fimLista
  /-- Line "--------------------------------------------------" -/
  | separador
  /-- Line "Fila inicial preenchida com %d peças." -/
  | filaPreenchida (n : Nat)
  /-- Line "Peça jogada: **%s (ID:%d)**. " -/
  | pecaJogada (p : Peca)
  /-- Line "Nova peça **%s (ID:%d)** adicionada ao final da fila." -/
  | novaPeca (p : Peca)
  /-- Line "Ação não realizada. A fila está vazia (erro na lógica)." -/
  | acaoNaoRealizada
  /-- The text of `exibirMenu`. -/
  | menu
  /-- Line "Saindo do Tetris Stack. Obrigado por jogar!" -/
  | saindo
  /-- Line "Opção inválida. Por favor, escolha novamente." -/
  | opcaoInvalida
deriving DecidableEq

/-! ## Array accesses -/

/-- Read `elementos[i]`: defined only for `0 ≤ i < CAPACIDADE_FILA`. -/
def lerElemento (elementos : Fin CAPACIDADE_FILA → Peca) (i : CInt) : Option Peca :=
  if h : 0 ≤ i.val ∧ i.val < (CAPACIDADE_FILA : Int) then
    some (elementos ⟨i.val.toNat, by have := h.1; have := h.2; omega⟩)
  else none

/-- Write `elementos[i] = p`: defined only for `0 ≤ i < CAPACIDADE_FILA`. -/
def escreverElemento (elementos : Fin CAPACIDADE_FILA → Peca) (i : CInt) (p : Peca) :
    Option (Fin CAPACIDADE_FILA → Peca) :=
  if h : 0 ≤ i.val ∧ i.val < (CAPACIDADE_FILA : Int) then
    some (Function.update elementos ⟨i.val.toNat, by have := h.1; have := h.2; omega⟩ p)
  else none

/-! ## The functions of `tetris.c` -/

/-- `inicializarFila`: sets the three integers to zero; the slots keep what they held. -/
def inicializarFila (fila : FilaCircular) : FilaCircular :=
  { fila with frente := 0, tras := 0, tamanho := 0 }

/-- The table `tipos` of `gerarPeca`. -/
def tipos : List String := ["I", "O", "T", "L", "J", "S", "Z"]

/-- `strcpy(novaPeca->nome, origem)` into `char nome[2]`: the string and its terminator
must fit in two bytes. -/
def copiarNome (origem : String) : Option String :=
  if origem.utf8ByteSize + 1 ≤ 2 then some origem else none

/-- `gerarPeca`: `proximoId` is the static counter (1 at process start), `r` the value
delivered by `rand()`.  Returns the piece and the new value of the counter.  The call
`srand(time(NULL))` made when the counter is 1 only reseeds the random source, whose
values are the argument `r`. -/
def gerarPeca (proximoId : CInt) (r : Nat) : Option (Peca × CInt) := do
  let numTipos := tipos.length
  let id := proximoId
  let proximoId := proximoId + 1
  let indiceTipo := r % numTipos
  let tipo ← tipos[indiceTipo]?
  let nome ← copiarNome tipo
  some ({ id := id, nome := nome }, proximoId)

/-- `enfileirar`: rejected with the error line when the queue is full; otherwise the
piece is stored at `tras`, `tras` advances circularly and `tamanho` grows by one. -/
def enfileirar (fila : FilaCircular) (novaPeca : Peca) : Option (FilaCircular × List Saida) :=
  if fila.tamanho = (CInt.ofInt CAPACIDADE_FILA) then
    some (fila, [Saida.erroFilaCheia])
  else do
    let elementos ← escreverElemento fila.elementos fila.tras novaPeca
    some ({ elementos := elementos,
            frente := fila.frente,
            tras := CInt.resto (fila.tras + 1) (CInt.ofInt CAPACIDADE_FILA),
            tamanho := fila.tamanho + 1 }, [])

/-- The piece `{0, ""}` returned by `desenfileirar` on an empty queue. -/
def pecaNula : Peca := { id := 0, nome := "" }

/-- `desenfileirar`: rejected with the error line and the null piece when the queue is
empty; otherwise the piece at `frente` is returned, `frente` advances circularly and
`tamanho` shrinks by one. -/
def desenfileirar (fila : FilaCircular) : Option (Peca × FilaCircular × List Saida) :=
  if fila.tamanho = 0 then
    some (pecaNula, fila, [Saida.erroFilaVazia])
  else do
    let pecaRemovida ← lerElemento fila.elementos fila.frente
    some (pecaRemovida,
          { fila with
            frente := CInt.resto (fila.frente + 1) (CInt.ofInt CAPACIDADE_FILA),
            tamanho := fila.tamanho - 1 }, [])

/-- The loop `for (int i = 0; i < fila->tamanho; i++)` of `visualizarFila`, started at
index `i` with `n` iterations left (neither `i` nor `tamanho` is changed by the body, so
the loop runs `tamanho - i` times). -/
def visualizarItens (fila : FilaCircular) : Nat → CInt → Option (List Saida)
  | 0, _ => some []
  | n + 1, i => do
    let indice := CInt.resto (fila.frente + i) (CInt.ofInt CAPACIDADE_FILA)
    let p ← lerElemento fila.elementos indice
    let resto ← visualizarItens fila n (i + 1)
    some (Saida.item p :: resto)

/-- `visualizarFila`: the header, then either the "[VAZIA]" line or the pieces from
`frente` on, `tamanho` of them. -/
def visualizarFila (fila : FilaCircular) : Option (List Saida) :=
  if fila.tamanho = 0 then
    some [Saida.cabecalho fila.tamanho CAPACIDADE_FILA, Saida.vazia, Saida.separador]
  else do
    let itens ← visualizarItens fila fila.tamanho.val.toNat 0
    some ([Saida.cabecalho fila.tamanho CAPACIDADE_FILA, Saida.inicioLista] ++ itens
          ++ [Saida.fimLista, Saida.separador])

/-- The loop `for (int i = 0; i < CAPACIDADE_FILA; i++)` of `preencherFilaInicial` with
`n` iterations left; `rs k` is the value `rand()` delivers in the iteration with `i = k`. -/
def preencherItens (rs : Nat → Nat) :
    Nat → Nat → FilaCircular → CInt → Option (FilaCircular × CInt × List Saida)
  | 0, _, fila, proximoId => some (fila, proximoId, [])
  | n + 1, i, fila, proximoId => do
    let (novaPeca, proximoId) ← gerarPeca proximoId (rs i)
    let (fila, s1) ← enfileirar fila novaPeca
    let (fila, proximoId, s2) ← preencherItens rs n (i + 1) fila proximoId
    some (fila, proximoId, s1 ++ s2)

/-- `preencherFilaInicial`: `CAPACIDADE_FILA` times, generate a piece and enqueue it. -/
def preencherFilaInicial (fila : FilaCircular) (proximoId : CInt) (rs : Nat → Nat) :
    Option (FilaCircular × CInt × List Saida) := do
  let (fila, proximoId, s) ← preencherItens rs CAPACIDADE_FILA 0 fila proximoId
  some (fila, proximoId, s ++ [Saida.filaPreenchida CAPACIDADE_FILA])

/-- `case 1` of the menu in `main` (the play turn): when the queue is not empty, dequeue
the front piece, generate a new piece and enqueue it; in both branches show the queue. -/
def jogar (fila : FilaCircular) (proximoId : CInt) (r : Nat) :
    Option (FilaCircular × CInt × List Saida) :=
  if 0 < fila.tamanho.val then do
    let (pecaJogada, fila, s1) ← desenfileirar fila
    let (novaPeca, proximoId) ← gerarPeca proximoId r
    let (fila, s2) ← enfileirar fila novaPeca
    let s3 ← visualizarFila fila
    some (fila, proximoId,
          s1 ++ [Saida.pecaJogada pecaJogada] ++ s2 ++ [Saida.novaPeca novaPeca] ++ s3)
  else do
    let s ← visualizarFila fila
    some (fila, proximoId, Saida.acaoNaoRealizada :: s)

/-- What one `scanf("%d", &opcao)` of the menu loop meets: a number (with the value
`rand()` would deliver during this iteration), or input that is not a number. -/
inductive Entrada where
  | numero (opcao : CInt) (r : Nat)
  | naoNumerica

/-- One iteration of the `do ... while (opcao != 0)` loop of `main`.  The boolean tells
whether the loop goes on. -/
def iteracaoMenu (fila : FilaCircular) (proximoId : CInt) :
    Entrada → Option (FilaCircular × CInt × List Saida × Bool)
  | Entrada.naoNumerica => some (fila, proximoId, [Saida.menu], true)
  | Entrada.numero opcao r =>
    if opcao = 1 then do
      let (fila, proximoId, s) ← jogar fila proximoId r
      some (fila, proximoId, Saida.menu :: s, true)
    else if opcao = 2 then do
      let s ← visualizarFila fila
      some (fila, proximoId, Saida.menu :: s, true)
    else if opcao = 0 then
      some (fila, proximoId, [Saida.menu, Saida.saindo], false)
    else
      some (fila, proximoId, [Saida.menu, Saida.opcaoInvalida], true)

/-- The menu loop of `main` over the inputs that are still to come. -/
def lacoMenu : FilaCircular → CInt → List Entrada → Option (FilaCircular × CInt × List Saida)
  | fila, proximoId, [] => some (fila, proximoId, [])
  | fila, proximoId, e :: es => do
    let (fila, proximoId, s1, continua) ← iteracaoMenu fila proximoId e
    if continua then do
      let (fila, proximoId, s2) ← lacoMenu fila proximoId es
      some (fila, proximoId, s1 ++ s2)
    else some (fila, proximoId, s1)

/-- `main`: `fila` is the queue variable as it is before initialisation (its contents are
not determined), the static counter of `gerarPeca` starts at 1, `rs` are the values of
`rand()` during the initial fill and `entradas` what the user types. -/
def main (fila : FilaCircular) (rs : Nat → Nat) (entradas : List Entrada) :
    Option (FilaCircular × CInt × List Saida) := do
  let fila := inicializarFila fila
  let (fila, proximoId, s1) ← preencherFilaInicial fila 1 rs
  let s2 ← visualizarFila fila
  let (fila, proximoId, s3) ← lacoMenu fila proximoId entradas
  some (fila, proximoId, s1 ++ s2 ++ s3)

/-! ## Sequences of calls -/

/-- A call of one of the two mutating queue functions. -/
inductive Operacao where
  | enfileirar (p : Peca)
  | desenfileirar

/-- Run a sequence of queue calls.  The result is the final queue, the pieces returned by
the `desenfileirar` calls in order, and the output. -/
def executar : FilaCircular → List Operacao → Option (FilaCircular × List Peca × List Saida)
  | fila, [] => some (fila, [], [])
  | fila, Operacao.enfileirar p :: ops => do
    let (fila, s1) ← enfileirar fila p
    let (fila, ps, s2) ← executar fila ops
    some (fila, ps, s1 ++ s2)
  | fila, Operacao.desenfileirar :: ops => do
    let (p, fila, s1) ← desenfileirar fila
    let (fila, ps, s2) ← executar fila ops
    some (fila, p :: ps, s1 ++ s2)

/-- A call made by the process: the supplier `gerarPeca` (with the value `rand()`
delivers), or a queue function. -/
inductive Chamada where
  | gerar (r : Nat)
  | fila (op : Operacao)
  | visualizar

/-- Run a sequence of calls from a queue and a value of the static counter.  The result
is the final queue, the final counter and the pieces returned by the `gerarPeca` calls in
order. -/
def executarChamadas : FilaCircular → CInt → List Chamada → Option (FilaCircular × CInt × List Peca)
  | fila, proximoId, [] => some (fila, proximoId, [])
  | fila, proximoId, Chamada.gerar r :: cs => do
    let (p, proximoId) ← gerarPeca proximoId r
    let (fila, proximoId, ps) ← executarChamadas fila proximoId cs
    some (fila, proximoId, p :: ps)
  | fila, proximoId, Chamada.fila op :: cs => do
    let (fila, _, _) ← executar fila [op]
    executarChamadas fila proximoId cs
  | fila, proximoId, Chamada.visualizar :: cs => do
    let _ ← visualizarFila fila
    executarChamadas fila proximoId cs

/-- The pieces listed by an output of `visualizarFila`, in the order printed. -/
def listagem (saida : List Saida) : List Peca :=
  saida.filterMap fun s => match s with
    | Saida.item p => some p
    | _ => none

/-! ## Invariants and the abstract content -/

/-- The invariants of the data model: `0 ≤ tamanho ≤ 5` and both cursors in `[0, 5)`. -/
def Invariantes (fila : FilaCircular) : Prop :=
  (0 ≤ fila.tamanho.val ∧ fila.tamanho.val ≤ 5) ∧
  (0 ≤ fila.frente.val ∧ fila.frente.val < 5) ∧
  (0 ≤ fila.tras.val ∧ fila.tras.val < 5)

instance (fila : FilaCircular) : Decidable (Invariantes fila) := by
  unfold Invariantes; infer_instance

/-- Cursor consistency: `tras` is `tamanho` positions after `frente`, circularly. -/
def Consistente (fila : FilaCircular) : Prop :=
  fila.tras.val = (fila.frente.val + fila.tamanho.val) % 5

instance (fila : FilaCircular) : Decidable (Consistente fila) := by
  unfold Consistente; infer_instance

/-- The slot addressed by an `int` index (reduced into the array for indexes that are out
of bounds, where no access is made). -/
def indice (i : CInt) : Fin CAPACIDADE_FILA :=
  ⟨i.val.toNat % CAPACIDADE_FILA, Nat.mod_lt _ (by decide)⟩

/-- The slot `(frente + i) mod 5`, the `i`-th position counted from the front. -/
def posicao (fila : FilaCircular) (i : Nat) : Fin CAPACIDADE_FILA :=
  ⟨(fila.frente.val.toNat + i) % CAPACIDADE_FILA, Nat.mod_lt _ (by decide)⟩

/-- The occupied slots read front to back: slot `(frente + i) mod 5` for `i` in
`[0, tamanho)`. -/
def conteudo (fila : FilaCircular) : List Peca :=
  (List.range fila.tamanho.val.toNat).map fun i => fila.elementos (posicao fila i)

/-! ## The reference queue of the specification -/

/-- Reference enqueue on a bounded list queue of capacity 5: append at the end when the
length is below 5, no-op otherwise. -/
def refEnfileirar (l : List Peca) (p : Peca) : List Peca :=
  if l.length < 5 then l ++ [p] else l

/-- Reference dequeue: the head, if any, and the list without it (no-op when empty). -/
def refDesenfileirar (l : List Peca) : Option Peca × List Peca :=
  (l.head?, l.tail)

/-- Run a sequence of calls on the reference queue: the final list and, for every
dequeue in order, the head it returned (`none` on the empty list). -/
def refExecutar : List Peca → List Operacao → List Peca × List (Option Peca)
  | l, [] => (l, [])
  | l, Operacao.enfileirar p :: ops => refExecutar (refEnfileirar l p) ops
  | l, Operacao.desenfileirar :: ops =>
    let r := refExecutar (refDesenfileirar l).2 ops
    (r.1, (refDesenfileirar l).1 :: r.2)

/-! ## Sample data -/

/-- A piece with the given id and name. -/
def pecaDe (id : Nat) (nome : String) : Peca := { id := CInt.ofInt id, nome := nome }

/-- A queue variable before initialisation: every slot holds `q`, the integers are 9. -/
def filaBruta (q : Peca) : FilaCircular :=
  { elementos := fun _ => q, frente := 9, tras := 9, tamanho := 9 }

/-- The number of `gerarPeca` calls in a sequence of calls. -/
def numGeradas : List Chamada → Nat
  | [] => 0
  | Chamada.gerar _ :: cs => numGeradas cs + 1
  | _ :: cs => numGeradas cs

/-- The wraparound scenario: enqueue ids 1 to 5, dequeue twice, enqueue ids 6 and 7
(`nome k` is the name of the piece with id `k`). -/
def cenarioVolta (nome : Nat → String) : List Operacao :=
  [Operacao.enfileirar (pecaDe 1 (nome 1)), Operacao.enfileirar (pecaDe 2 (nome 2)),
   Operacao.enfileirar (pecaDe 3 (nome 3)), Operacao.enfileirar (pecaDe 4 (nome 4)),
   Operacao.enfileirar (pecaDe 5 (nome 5)), Operacao.desenfileirar, Operacao.desenfileirar,
   Operacao.enfileirar (pecaDe 6 (nome 6)), Operacao.enfileirar (pecaDe 7 (nome 7))]

/-- Three sample pieces. -/
def pecasExemplo : List Peca := [pecaDe 1 "I", pecaDe 2 "O", pecaDe 3 "T"]

/-- A full queue whose front is slot 2. -/
def filaCheia : FilaCircular :=
  { elementos := fun i => pecaDe (i.val + 10) "T", frente := 2, tras := 2, tamanho := 5 }

/-- An empty queue whose cursors are at slot 3. -/
def filaVazia : FilaCircular :=
  { elementos := fun i => pecaDe (i.val + 10) "S", frente := 3, tras := 3, tamanho := 0 }

/-- A queue holding three pieces in slots 3, 4 and 0. -/
def filaParcial : FilaCircular :=
  { elementos := fun i => pecaDe (i.val + 10) "L", frente := 3, tras := 1, tamanho := 3 }

/-- The queue `filaParcial` with other pieces in the two free slots and another `tras`. -/
def filaParcialOutra : FilaCircular :=
  { elementos := fun i => if i.val = 1 ∨ i.val = 2 then pecaDe 99 "Z" else pecaDe (i.val + 10) "L",
    frente := 3, tras := 4, tamanho := 3 }

/-- A sample interleaving of supplier and queue calls. -/
def chamadasExemplo : List Chamada :=
  [Chamada.gerar 3, Chamada.fila (Operacao.enfileirar (pecaDe 1 "L")), Chamada.gerar 11,
   Chamada.visualizar, Chamada.fila Operacao.desenfileirar, Chamada.fila Operacao.desenfileirar,
   Chamada.gerar 0]

/-! ## Observations on the output and on call sequences -/

/-- No line of the output reports a rejected call: neither the "queue is full" error of
`enfileirar`, nor the "queue is empty" error of `desenfileirar`, nor the "queue is empty"
branch of option 1 of the menu. -/
def SemErro (saida : List Saida) : Prop :=
  Saida.erroFilaCheia ∉ saida ∧ Saida.erroFilaVazia ∉ saida ∧ Saida.acaoNaoRealizada ∉ saida

instance (saida : List Saida) : Decidable (SemErro saida) := by
  unfold SemErro; infer_instance

/-- The pieces reported as played (dequeued by a play turn), in the order printed. -/
def jogadas (saida : List Saida) : List Peca :=
  saida.filterMap fun s => match s with
    | Saida.pecaJogada p => some p
    | _ => none

/-- The pieces reported as added by a play turn, in the order printed. -/
def novas (saida : List Saida) : List Peca :=
  saida.filterMap fun s => match s with
    | Saida.novaPeca p => some p
    | _ => none

/-- The pieces passed to the `enfileirar` calls of a sequence, in order. -/
def pecasEnfileiradas : List Operacao → List Peca
  | [] => []
  | Operacao.enfileirar p :: ops => p :: pecasEnfileiradas ops
  | Operacao.desenfileirar :: ops => pecasEnfileiradas ops

/-- The inputs of `n`-many menu iterations that all choose option `opcao`; `rs` gives the
values of `rand()`. -/
def escolhas (opcao : CInt) (rs : List Nat) : List Entrada :=
  rs.map fun r => Entrada.numero opcao r

/-- A sample sequence of queue calls whose pieces all have a positive id. -/
def operacoesExemplo : List Operacao :=
  [Operacao.enfileirar (pecaDe 1 "I"), Operacao.enfileirar (pecaDe 2 "O"),
   Operacao.desenfileirar, Operacao.enfileirar (pecaDe 3 "T")]

/-- The state of the queue between two actions of the driver: within the invariants,
consistent and full. -/
def Cheia (fila : FilaCircular) : Prop :=
  Invariantes fila ∧ Consistente fila ∧ fila.tamanho.val = 5

instance (fila : FilaCircular) : Decidable (Cheia fila) := by
  unfold Cheia; infer_instance

/-- The index `(fila->frente + i) % CAPACIDADE_FILA` that the loop of `visualizarFila`
computes in its iteration `i = k`, in `int` arithmetic. -/
def indiceVisto (fila : FilaCircular) (k : Nat) : CInt :=
  CInt.resto (fila.frente + CInt.ofInt k) (CInt.ofInt CAPACIDADE_FILA)

/-- The slot `(frente + i) mod 5` with the mathematical remainder, for any `frente`. -/
def slotOcupado (fila : FilaCircular) (i : Nat) : Fin CAPACIDADE_FILA :=
  ⟨((fila.frente.val + (i : Int)) % 5).toNat, by show _ < 5; omega⟩

/-- A queue value with `tamanho == -1`. -/
def filaTamanhoNegativo : FilaCircular :=
  { elementos := fun i => pecaDe (i.val + 10) "L", frente := 0, tras := 0,
    tamanho := CInt.ofInt (-1) }

/-- A queue value with `frente == -3` and `tamanho == 1`. -/
def filaFrenteNegativa : FilaCircular :=
  { elementos := fun i => pecaDe (i.val + 10) "L", frente := CInt.ofInt (-3), tras := 0,
    tamanho := 1 }

/-- A queue value outside the invariants, `frente == 7` and `tamanho == 7`: the view goes
round the array, from slot 2 on. -/
def filaLarga : FilaCircular :=
  { elementos := fun i => pecaDe (i.val + 10) "L", frente := 7, tras := 1, tamanho := 7 }

/-- The queue `filaLarga` with another `tras`. -/
def filaLargaOutra : FilaCircular :=
  { elementos := fun i => pecaDe (i.val + 10) "L", frente := 7, tras := 4, tamanho := 7 }

/-! ## Arithmetic of `CInt` -/

theorem wrap_range (v : Int) : -2147483648 ≤ wrap v ∧ wrap v ≤ 2147483647 := by
  unfold wrap; omega

theorem wrap_eq_self {v : Int} (h1 : -2147483648 ≤ v) (h2 : v ≤ 2147483647) : wrap v = v := by
  unfold wrap; omega

namespace CInt

theorem eq_of_val {a b : CInt} (h : a.val = b.val) : a = b := by
  cases a; cases b; simp only at h; subst h; rfl

theorem eq_iff_val {a b : CInt} : a = b ↔ a.val = b.val :=
  ⟨fun h => by rw [h], eq_of_val⟩

theorem val_ofInt (v : Int) : (ofInt v).val = wrap v := rfl

theorem val_ofInt_of_range {v : Int} (h1 : -2147483648 ≤ v) (h2 : v ≤ 2147483647) :
    (ofInt v).val = v := wrap_eq_self h1 h2

theorem val_zero : (0 : CInt).val = 0 := by decide

theorem val_one : (1 : CInt).val = 1 := by decide

theorem val_capacidade : (ofInt CAPACIDADE_FILA).val = 5 := by decide

theorem val_add (a b : CInt) : (a + b).val = wrap (a.val + b.val) := rfl

theorem val_sub (a b : CInt) : (a - b).val = wrap (a.val - b.val) := rfl

theorem val_resto (a b : CInt) : (resto a b).val = wrap (Int.tmod a.val b.val) := rfl

theorem val_add_one {a : CInt} (h : a.val < 2147483647) : (a + 1).val = a.val + 1 := by
  have := a.range
  rw [val_add, val_one]; exact wrap_eq_self (by omega) (by omega)

theorem val_sub_one {a : CInt} (h : -2147483648 < a.val) : (a - 1).val = a.val - 1 := by
  have := a.range
  rw [val_sub, val_one]; exact wrap_eq_self (by omega) (by omega)

/-- The circular increment `(a + b) % CAPACIDADE_FILA` on non-negative operands whose
sum does not overflow. -/
theorem val_resto_add {a b : CInt} (ha : 0 ≤ a.val) (hb : 0 ≤ b.val)
    (hs : a.val + b.val ≤ 2147483647) :
    (resto (a + b) (ofInt CAPACIDADE_FILA)).val = (a.val + b.val) % 5 := by
  rw [val_resto, val_capacidade, val_add, wrap_eq_self (by omega) hs,
    Int.tmod_eq_emod (by omega) (by omega)]
  exact wrap_eq_self (by omega) (by omega)

theorem val_resto_succ {a : CInt} (ha : 0 ≤ a.val) (h : a.val < 2147483647) :
    (resto (a + 1) (ofInt CAPACIDADE_FILA)).val = (a.val + 1) % 5 := by
  have := val_resto_add (a := a) (b := 1) ha (by rw [val_one]; omega) (by rw [val_one]; omega)
  rwa [val_one] at this

end CInt

/-! ## Array accesses within bounds -/

theorem lerElemento_ok (e : Fin CAPACIDADE_FILA → Peca) {i : CInt}
    (h0 : 0 ≤ i.val) (h5 : i.val < 5) : lerElemento e i = some (e (indice i)) := by
  have hi : ∀ hh : i.val.toNat < CAPACIDADE_FILA, (⟨i.val.toNat, hh⟩ : Fin CAPACIDADE_FILA)
      = indice i := fun hh => Fin.ext (by show i.val.toNat = i.val.toNat % 5; omega)
  unfold lerElemento
  rw [dif_pos ⟨h0, by simpa using h5⟩, hi]

theorem escreverElemento_ok (e : Fin CAPACIDADE_FILA → Peca) {i : CInt} (p : Peca)
    (h0 : 0 ≤ i.val) (h5 : i.val < 5) :
    escreverElemento e i p = some (Function.update e (indice i) p) := by
  have hi : ∀ hh : i.val.toNat < CAPACIDADE_FILA, (⟨i.val.toNat, hh⟩ : Fin CAPACIDADE_FILA)
      = indice i := fun hh => Fin.ext (by show i.val.toNat = i.val.toNat % 5; omega)
  unfold escreverElemento
  rw [dif_pos ⟨h0, by simpa using h5⟩, hi]

theorem lerElemento_fora (e : Fin CAPACIDADE_FILA → Peca) {i : CInt}
    (h : ¬ (0 ≤ i.val ∧ i.val < 5)) : lerElemento e i = none := by
  unfold lerElemento
  rw [dif_neg (by simpa using h)]

/-! ## The effect of one call -/

theorem enfileirar_cheia (fila : FilaCircular) (p : Peca) (h : fila.tamanho.val = 5) :
    enfileirar fila p = some (fila, [Saida.erroFilaCheia]) := by
  unfold enfileirar
  rw [if_pos (CInt.eq_of_val (by rw [h, CInt.val_capacidade]))]

theorem enfileirar_ok (fila : FilaCircular) (p : Peca) (h : fila.tamanho.val ≠ 5)
    (h0 : 0 ≤ fila.tras.val) (h5 : fila.tras.val < 5) :
    enfileirar fila p =
      some ({ elementos := Function.update fila.elementos (indice fila.tras) p,
              frente := fila.frente,
              tras := CInt.resto (fila.tras + 1) (CInt.ofInt CAPACIDADE_FILA),
              tamanho := fila.tamanho + 1 }, []) := by
  unfold enfileirar
  rw [if_neg (fun hc => h (by rw [hc, CInt.val_capacidade])),
    escreverElemento_ok _ _ h0 h5]
  rfl

theorem desenfileirar_vazia (fila : FilaCircular) (h : fila.tamanho.val = 0) :
    desenfileirar fila = some (pecaNula, fila, [Saida.erroFilaVazia]) := by
  unfold desenfileirar
  rw [if_pos (CInt.eq_of_val (by rw [h, CInt.val_zero]))]

theorem desenfileirar_ok (fila : FilaCircular) (h : fila.tamanho.val ≠ 0)
    (h0 : 0 ≤ fila.frente.val) (h5 : fila.frente.val < 5) :
    desenfileirar fila =
      some (fila.elementos (indice fila.frente),
            { fila with
              frente := CInt.resto (fila.frente + 1) (CInt.ofInt CAPACIDADE_FILA),
              tamanho := fila.tamanho - 1 }, []) := by
  unfold desenfileirar
  rw [if_neg (fun hc => h (by rw [hc, CInt.val_zero])), lerElemento_ok _ h0 h5]
  rfl

/-! ## The view and the abstract content -/

theorem visualizarItens_eq (fila : FilaCircular)
    (hf0 : 0 ≤ fila.frente.val) (hf5 : fila.frente.val < 5) :
    ∀ (n : Nat) (i : CInt), 0 ≤ i.val → i.val + n ≤ 5 →
      visualizarItens fila n i =
        some ((List.range n).map fun j =>
          Saida.item (fila.elementos (posicao fila (i.val.toNat + j)))) := by
  intro n
  induction n with
  | zero => intro i _ _; rfl
  | succ n ih =>
    intro i hi0 hin
    have hi1 : (i + 1).val = i.val + 1 := CInt.val_add_one (by omega)
    have hidx := CInt.val_resto_add hf0 hi0 (by omega : fila.frente.val + i.val ≤ 2147483647)
    have hpos : indice (CInt.resto (fila.frente + i) (CInt.ofInt CAPACIDADE_FILA))
        = posicao fila (i.val.toNat + 0) := by
      apply Fin.ext
      show (CInt.resto (fila.frente + i) (CInt.ofInt CAPACIDADE_FILA)).val.toNat % 5
        = (fila.frente.val.toNat + (i.val.toNat + 0)) % 5
      rw [hidx]; omega
    have hrec := ih (i + 1) (by omega) (by rw [hi1]; push_cast at hin ⊢; omega)
    have hnat : (i + 1).val.toNat = i.val.toNat + 1 := by rw [hi1]; omega
    unfold visualizarItens
    dsimp only
    rw [lerElemento_ok _ (by rw [hidx]; omega) (by rw [hidx]; omega), hrec, hpos,
      List.range_succ_eq_map, List.map_cons, List.map_map]
    simp only [Option.bind_eq_bind, Option.some_bind, hnat]
    congr 2
    apply List.map_congr_left
    intro j _
    simp only [Function.comp, Nat.succ_eq_add_one]
    congr 3
    omega

theorem visualizarFila_eq (fila : FilaCircular)
    (ht0 : 0 ≤ fila.tamanho.val) (ht5 : fila.tamanho.val ≤ 5)
    (hf0 : 0 ≤ fila.frente.val) (hf5 : fila.frente.val < 5) :
    visualizarFila fila =
      some (if fila.tamanho = 0 then
              [Saida.cabecalho fila.tamanho CAPACIDADE_FILA, Saida.vazia, Saida.separador]
            else
              [Saida.cabecalho fila.tamanho CAPACIDADE_FILA, Saida.inicioLista]
                ++ (conteudo fila).map Saida.item ++ [Saida.fimLista, Saida.separador]) := by
  unfold visualizarFila
  by_cases h : fila.tamanho = 0
  · rw [if_pos h, if_pos h]
  · rw [if_neg h, if_neg h,
      visualizarItens_eq fila hf0 hf5 _ 0 (by rw [CInt.val_zero]) (by rw [CInt.val_zero]; omega)]
    simp only [Option.bind_eq_bind, Option.some_bind, conteudo, List.map_map, CInt.val_zero,
      Int.toNat_zero, Nat.zero_add]
    rfl

theorem listagem_map_item (l : List Peca) : listagem (l.map Saida.item) = l := by
  induction l with
  | nil => rfl
  | cons a l ih =>
    unfold listagem at ih ⊢
    rw [List.map_cons, List.filterMap_cons_some (by rfl), ih]

theorem listagem_append (a b : List Saida) : listagem (a ++ b) = listagem a ++ listagem b := by
  unfold listagem; rw [List.filterMap_append]

theorem conteudo_vazio (fila : FilaCircular) (h : fila.tamanho.val = 0) : conteudo fila = [] := by
  unfold conteudo; rw [h]; rfl

theorem conteudo_length (fila : FilaCircular) :
    (conteudo fila).length = fila.tamanho.val.toNat := by
  unfold conteudo; rw [List.length_map, List.length_range]

/-- Under the invariants on `frente` and `tamanho`, the pieces listed by `visualizarFila`
are the abstract content. -/
theorem listagem_visualizarFila (fila : FilaCircular)
    (ht0 : 0 ≤ fila.tamanho.val) (ht5 : fila.tamanho.val ≤ 5)
    (hf0 : 0 ≤ fila.frente.val) (hf5 : fila.frente.val < 5) :
    (visualizarFila fila).map listagem = some (conteudo fila) := by
  rw [visualizarFila_eq fila ht0 ht5 hf0 hf5, Option.map_some']
  by_cases h : fila.tamanho = 0
  · rw [if_pos h, conteudo_vazio fila (by rw [h, CInt.val_zero])]; rfl
  · rw [if_neg h, listagem_append, listagem_append, listagem_map_item]
    show some ([] ++ conteudo fila ++ []) = _
    simp

/-! ## One call on a queue that satisfies the invariants -/

theorem inicializarFila_inv (fila : FilaCircular) :
    Invariantes (inicializarFila fila) ∧ Consistente (inicializarFila fila) ∧
      conteudo (inicializarFila fila) = [] := by
  have ht : (inicializarFila fila).tamanho.val = 0 := CInt.val_zero
  have hf : (inicializarFila fila).frente.val = 0 := CInt.val_zero
  have hr : (inicializarFila fila).tras.val = 0 := CInt.val_zero
  refine ⟨?_, ?_, conteudo_vazio _ ht⟩
  · unfold Invariantes; omega
  · unfold Consistente; omega

theorem enfileirar_passo (fila : FilaCircular) (p : Peca)
    (hI : Invariantes fila) (hC : Consistente fila) (h : fila.tamanho.val ≠ 5) :
    ∃ fila', enfileirar fila p = some (fila', []) ∧ Invariantes fila' ∧ Consistente fila' ∧
      conteudo fila' = conteudo fila ++ [p] := by
  obtain ⟨⟨ht0, ht5⟩, ⟨hf0, hf5⟩, ⟨hr0, hr5⟩⟩ := hI
  unfold Consistente at hC
  have htras := CInt.val_resto_succ hr0 (by omega : fila.tras.val < 2147483647)
  have htam := CInt.val_add_one (by omega : fila.tamanho.val < 2147483647)
  refine ⟨_, enfileirar_ok fila p h hr0 hr5, ?_, ?_, ?_⟩
  · refine ⟨⟨?_, ?_⟩, ⟨hf0, hf5⟩, ⟨?_, ?_⟩⟩
    · show 0 ≤ (fila.tamanho + 1).val
      omega
    · show (fila.tamanho + 1).val ≤ 5
      omega
    · show 0 ≤ (CInt.resto (fila.tras + 1) (CInt.ofInt CAPACIDADE_FILA)).val
      omega
    · show (CInt.resto (fila.tras + 1) (CInt.ofInt CAPACIDADE_FILA)).val < 5
      omega
  · show (CInt.resto (fila.tras + 1) (CInt.ofInt CAPACIDADE_FILA)).val
      = (fila.frente.val + (fila.tamanho + 1).val) % 5
    omega
  · show List.map (fun i => Function.update fila.elementos (indice fila.tras) p
        (posicao fila i)) (List.range (fila.tamanho + 1).val.toNat)
      = conteudo fila ++ [p]
    have hn : (fila.tamanho + 1).val.toNat = fila.tamanho.val.toNat + 1 := by omega
    have hlast : posicao fila fila.tamanho.val.toNat = indice fila.tras := by
      apply Fin.ext
      show (fila.frente.val.toNat + fila.tamanho.val.toNat) % 5 = fila.tras.val.toNat % 5
      omega
    rw [hn, List.range_succ, List.map_append, List.map_singleton, hlast,
      Function.update_same]
    congr 1
    unfold conteudo
    apply List.map_congr_left
    intro i hi
    rw [List.mem_range] at hi
    apply Function.update_noteq
    intro hc
    have hv := congrArg Fin.val hc
    have hv' : (fila.frente.val.toNat + i) % 5 = fila.tras.val.toNat % 5 := hv
    omega

theorem desenfileirar_passo (fila : FilaCircular)
    (hI : Invariantes fila) (hC : Consistente fila) (h : fila.tamanho.val ≠ 0) :
    ∃ fila', desenfileirar fila = some (fila.elementos (indice fila.frente), fila', []) ∧
      Invariantes fila' ∧ Consistente fila' ∧
      conteudo fila = fila.elementos (indice fila.frente) :: conteudo fila' := by
  obtain ⟨⟨ht0, ht5⟩, ⟨hf0, hf5⟩, ⟨hr0, hr5⟩⟩ := hI
  unfold Consistente at hC
  have hfr := CInt.val_resto_succ hf0 (by omega : fila.frente.val < 2147483647)
  have htam := CInt.val_sub_one (by omega : -2147483648 < fila.tamanho.val)
  refine ⟨_, desenfileirar_ok fila h hf0 hf5, ?_, ?_, ?_⟩
  · refine ⟨⟨?_, ?_⟩, ⟨?_, ?_⟩, ⟨hr0, hr5⟩⟩
    · show 0 ≤ (fila.tamanho - 1).val
      omega
    · show (fila.tamanho - 1).val ≤ 5
      omega
    · show 0 ≤ (CInt.resto (fila.frente + 1) (CInt.ofInt CAPACIDADE_FILA)).val
      omega
    · show (CInt.resto (fila.frente + 1) (CInt.ofInt CAPACIDADE_FILA)).val < 5
      omega
  · show fila.tras.val = ((CInt.resto (fila.frente + 1) (CInt.ofInt CAPACIDADE_FILA)).val
      + (fila.tamanho - 1).val) % 5
    omega
  · have hn : fila.tamanho.val.toNat = (fila.tamanho - 1).val.toNat + 1 := by omega
    unfold conteudo
    rw [hn, List.range_succ_eq_map, List.map_cons, List.map_map]
    refine congrArg₂ List.cons rfl (congrArg₂ List.map ?_ rfl)
    funext i
    show fila.elementos _ = fila.elementos _
    congr 1
    apply Fin.ext
    show (fila.frente.val.toNat + (i + 1)) % 5
      = ((CInt.resto (fila.frente + 1) (CInt.ofInt CAPACIDADE_FILA)).val.toNat + i) % 5
    omega

/-! ## Sequences of calls on a queue that satisfies the invariants -/

theorem executar_enfileirar (fila fila1 : FilaCircular) (p : Peca) (s1 : List Saida)
    (ops : List Operacao) (h : enfileirar fila p = some (fila1, s1)) :
    executar fila (Operacao.enfileirar p :: ops) =
      (executar fila1 ops).map fun r => (r.1, r.2.1, s1 ++ r.2.2) := by
  conv_lhs => rw [executar]
  rw [h]
  simp only [Option.bind_eq_bind, Option.some_bind]
  cases executar fila1 ops <;> rfl

theorem executar_desenfileirar (fila fila1 : FilaCircular) (p : Peca) (s1 : List Saida)
    (ops : List Operacao) (h : desenfileirar fila = some (p, fila1, s1)) :
    executar fila (Operacao.desenfileirar :: ops) =
      (executar fila1 ops).map fun r => (r.1, p :: r.2.1, s1 ++ r.2.2) := by
  conv_lhs => rw [executar]
  rw [h]
  simp only [Option.bind_eq_bind, Option.some_bind]
  cases executar fila1 ops <;> rfl

/-- Refinement: from a queue that satisfies the invariants, every sequence of calls is
defined, keeps the invariants, and agrees with the reference queue run from the abstract
content. -/
theorem executar_refina (ops : List Operacao) :
    ∀ fila : FilaCircular, Invariantes fila → Consistente fila →
      ∃ fila' ps s, executar fila ops = some (fila', ps, s) ∧
        Invariantes fila' ∧ Consistente fila' ∧
        conteudo fila' = (refExecutar (conteudo fila) ops).1 ∧
        ps = (refExecutar (conteudo fila) ops).2.map fun o => o.getD pecaNula := by
  induction ops with
  | nil => intro fila hI hC; exact ⟨fila, [], [], rfl, hI, hC, rfl, rfl⟩
  | cons op ops ih =>
    intro fila hI hC
    have hlen := conteudo_length fila
    cases op with
    | enfileirar p =>
      by_cases h : fila.tamanho.val = 5
      · obtain ⟨fila', ps, s, he, hI', hC', hc, hp⟩ := ih fila hI hC
        refine ⟨fila', ps, [Saida.erroFilaCheia] ++ s, ?_, hI', hC', ?_, ?_⟩
        · rw [executar_enfileirar _ _ _ _ _ (enfileirar_cheia fila p h), he]; rfl
        · have hr : refEnfileirar (conteudo fila) p = conteudo fila := by
            unfold refEnfileirar; rw [if_neg (by omega)]
          show _ = (refExecutar (refEnfileirar (conteudo fila) p) ops).1
          rw [hr]; exact hc
        · have hr : refEnfileirar (conteudo fila) p = conteudo fila := by
            unfold refEnfileirar; rw [if_neg (by omega)]
          show _ = (refExecutar (refEnfileirar (conteudo fila) p) ops).2.map _
          rw [hr]; exact hp
      · obtain ⟨fila1, h1, hI1, hC1, hc1⟩ := enfileirar_passo fila p hI hC h
        obtain ⟨fila', ps, s, he, hI', hC', hc, hp⟩ := ih fila1 hI1 hC1
        have hr : refEnfileirar (conteudo fila) p = conteudo fila1 := by
          unfold refEnfileirar
          have := hI.1
          rw [if_pos (by omega), hc1]
        refine ⟨fila', ps, [] ++ s, ?_, hI', hC', ?_, ?_⟩
        · rw [executar_enfileirar _ _ _ _ _ h1, he]; rfl
        · show _ = (refExecutar (refEnfileirar (conteudo fila) p) ops).1
          rw [hr]; exact hc
        · show _ = (refExecutar (refEnfileirar (conteudo fila) p) ops).2.map _
          rw [hr]; exact hp
    | desenfileirar =>
      by_cases h : fila.tamanho.val = 0
      · obtain ⟨fila', ps, s, he, hI', hC', hc, hp⟩ := ih fila hI hC
        have hv := conteudo_vazio fila h
        refine ⟨fila', pecaNula :: ps, [Saida.erroFilaVazia] ++ s, ?_, hI', hC', ?_, ?_⟩
        · rw [executar_desenfileirar _ _ _ _ _ (desenfileirar_vazia fila h), he]; rfl
        · show _ = (refExecutar (refDesenfileirar (conteudo fila)).2 ops).1
          rw [hv] at hc ⊢; exact hc
        · show _ = ((refDesenfileirar (conteudo fila)).1 ::
            (refExecutar (refDesenfileirar (conteudo fila)).2 ops).2).map _
          rw [hv] at hp ⊢
          rw [List.map_cons]
          show pecaNula :: ps = pecaNula :: List.map _ (refExecutar [] ops).2
          rw [← hp]
      · obtain ⟨fila1, h1, hI1, hC1, hc1⟩ := desenfileirar_passo fila hI hC h
        obtain ⟨fila', ps, s, he, hI', hC', hc, hp⟩ := ih fila1 hI1 hC1
        refine ⟨fila', fila.elementos (indice fila.frente) :: ps, [] ++ s, ?_, hI', hC', ?_, ?_⟩
        · rw [executar_desenfileirar _ _ _ _ _ h1, he]; rfl
        · show _ = (refExecutar (refDesenfileirar (conteudo fila)).2 ops).1
          rw [hc1]; exact hc
        · show _ = ((refDesenfileirar (conteudo fila)).1 ::
            (refExecutar (refDesenfileirar (conteudo fila)).2 ops).2).map _
          rw [hc1, List.map_cons]
          show _ = _ :: ((refExecutar (conteudo fila1) ops).2.map _)
          rw [← hp]; rfl

/-- A run of accepted `enfileirar` calls in front of any further calls: the pieces are
appended to the content and nothing is printed. -/
theorem executar_enfileirar_todas (es : List Peca) (resto : List Operacao) :
    ∀ fila : FilaCircular, Invariantes fila → Consistente fila →
      fila.tamanho.val + es.length ≤ 5 →
      ∃ fila1, Invariantes fila1 ∧ Consistente fila1 ∧ conteudo fila1 = conteudo fila ++ es ∧
        executar fila (es.map Operacao.enfileirar ++ resto) = executar fila1 resto := by
  induction es with
  | nil => intro fila hI hC _; exact ⟨fila, hI, hC, by simp, rfl⟩
  | cons e es ih =>
    intro fila hI hC hlen
    have hl : ((e :: es).length : Int) = (es.length : Int) + 1 := by
      rw [List.length_cons]; push_cast; rfl
    have ht0 := hI.1.1
    obtain ⟨fila1, h1, hI1, hC1, hc1⟩ := enfileirar_passo fila e hI hC (by omega)
    have hlen1 := conteudo_length fila1
    have hlen0 := conteudo_length fila
    rw [hc1, List.length_append, List.length_singleton] at hlen1
    have ht1 := hI1.1.1
    obtain ⟨fila2, hI2, hC2, hc2, he2⟩ := ih fila1 hI1 hC1 (by omega)
    refine ⟨fila2, hI2, hC2, ?_, ?_⟩
    · rw [hc2, hc1, List.append_assoc]; rfl
    · rw [List.map_cons, List.cons_append, executar_enfileirar _ _ _ _ _ h1, he2]
      cases executar fila2 resto <;> rfl

/-- A run of `n` accepted `desenfileirar` calls returns the first `n` pieces of the
content, in order, and prints nothing. -/
theorem executar_desenfileirar_n (n : Nat) :
    ∀ fila : FilaCircular, Invariantes fila → Consistente fila → n ≤ (conteudo fila).length →
      ∃ fila', executar fila (List.replicate n Operacao.desenfileirar)
          = some (fila', (conteudo fila).take n, []) ∧
        Invariantes fila' ∧ Consistente fila' ∧ conteudo fila' = (conteudo fila).drop n := by
  induction n with
  | zero => intro fila hI hC _; exact ⟨fila, rfl, hI, hC, rfl⟩
  | succ n ih =>
    intro fila hI hC hn
    have hlen0 := conteudo_length fila
    have ht0 := hI.1.1
    obtain ⟨fila1, h1, hI1, hC1, hc1⟩ := desenfileirar_passo fila hI hC (by omega)
    rw [hc1, List.length_cons] at hn
    obtain ⟨fila', he, hI', hC', hc⟩ := ih fila1 hI1 hC1 (by omega)
    refine ⟨fila', ?_, hI', hC', ?_⟩
    · rw [List.replicate_succ, executar_desenfileirar _ _ _ _ _ h1, he, hc1]; rfl
    · rw [hc, hc1]; rfl

theorem tamanho_zero_of_conteudo (fila : FilaCircular) (hI : Invariantes fila)
    (h : conteudo fila = []) : fila.tamanho.val = 0 := by
  have hlen := conteudo_length fila
  rw [h] at hlen
  have := hI.1.1
  simp only [List.length_nil] at hlen
  omega

/-! ## The supplier -/

theorem gerarPeca_ok (proximoId : CInt) (r : Nat) :
    ∃ nome, nome ∈ tipos ∧
      gerarPeca proximoId r = some ({ id := proximoId, nome := nome }, proximoId + 1) := by
  have hlt : r % tipos.length < 7 := Nat.mod_lt _ (by decide)
  unfold gerarPeca
  dsimp only
  generalize r % tipos.length = k at hlt
  interval_cases k
  · exact ⟨"I", by decide, rfl⟩
  · exact ⟨"O", by decide, rfl⟩
  · exact ⟨"T", by decide, rfl⟩
  · exact ⟨"L", by decide, rfl⟩
  · exact ⟨"J", by decide, rfl⟩
  · exact ⟨"S", by decide, rfl⟩
  · exact ⟨"Z", by decide, rfl⟩

theorem wrap_wrap_add (a b : Int) : wrap (wrap a + b) = wrap (a + b) := by
  unfold wrap; omega

theorem numGeradas_replicate (n r : Nat) :
    numGeradas (List.replicate n (Chamada.gerar r)) = n := by
  induction n with
  | zero => rfl
  | succ n ih => rw [List.replicate_succ]; show numGeradas _ + 1 = n + 1; rw [ih]

/-- From a queue that satisfies the invariants every sequence of calls is defined, and the
ids of the generated pieces are the successive values of the counter. -/
theorem executarChamadas_ids (cs : List Chamada) :
    ∀ (fila : FilaCircular) (c : CInt), Invariantes fila → Consistente fila →
      ∃ fila' c' ps, executarChamadas fila c cs = some (fila', c', ps) ∧
        Invariantes fila' ∧ Consistente fila' ∧
        ps.map (fun p => p.id.val) =
          (List.range (numGeradas cs)).map fun k : Nat => wrap (c.val + (k : Int)) := by
  induction cs with
  | nil => intro fila c hI hC; exact ⟨fila, c, [], rfl, hI, hC, rfl⟩
  | cons ch cs ih =>
    intro fila c hI hC
    cases ch with
    | gerar r =>
      obtain ⟨nome, _, hg⟩ := gerarPeca_ok c r
      obtain ⟨fila', c', ps, he, hI', hC', hids⟩ := ih fila (c + 1) hI hC
      refine ⟨fila', c', { id := c, nome := nome } :: ps, ?_, hI', hC', ?_⟩
      · conv_lhs => rw [executarChamadas]
        rw [hg]
        simp only [Option.bind_eq_bind, Option.some_bind]
        rw [he]
        rfl
      · show List.map _ (_ :: ps) = (List.range (numGeradas cs + 1)).map _
        rw [List.map_cons, hids, List.range_succ_eq_map, List.map_cons, List.map_map]
        refine congrArg₂ List.cons ?_ (congrArg₂ List.map ?_ rfl)
        · show c.val = wrap (c.val + ((0 : Nat) : Int))
          have := c.range
          rw [wrap_eq_self (by omega) (by omega)]; simp
        · funext k
          show wrap ((c + 1).val + (k : Int)) = wrap (c.val + ((k + 1 : Nat) : Int))
          rw [CInt.val_add, CInt.val_one, wrap_wrap_add]
          congr 1; push_cast; omega
    | fila op =>
      obtain ⟨fila1, ps1, s1, h1, hI1, hC1, _, _⟩ := executar_refina [op] fila hI hC
      obtain ⟨fila', c', ps, he, hI', hC', hids⟩ := ih fila1 c hI1 hC1
      refine ⟨fila', c', ps, ?_, hI', hC', hids⟩
      conv_lhs => rw [executarChamadas]
      rw [h1]
      simp only [Option.bind_eq_bind, Option.some_bind]
      rw [he]
    | visualizar =>
      obtain ⟨fila', c', ps, he, hI', hC', hids⟩ := ih fila c hI hC
      refine ⟨fila', c', ps, ?_, hI', hC', hids⟩
      conv_lhs => rw [executarChamadas]
      rw [visualizarFila_eq fila hI.1.1 hI.1.2 hI.2.1.1 hI.2.1.2]
      simp only [Option.bind_eq_bind, Option.some_bind]
      rw [he]

/-! ## Properties of the queue -/

/-- C1 (FIFO order).  For every list `es` of at most `CAPACIDADE_FILA` pieces and every
queue variable, after `inicializarFila`, enqueueing the pieces of `es` in order and then
calling `desenfileirar` as many times returns exactly `es`, in order; no call prints an
error line, and the queue ends with `tamanho == 0`. -/
theorem fifo_order (fila0 : FilaCircular) (es : List Peca) (hk : es.length ≤ CAPACIDADE_FILA) :
    ∃ fila', executar (inicializarFila fila0)
        (es.map Operacao.enfileirar ++ List.replicate es.length Operacao.desenfileirar)
          = some (fila', es, []) ∧
      fila'.tamanho.val = 0 := by
  obtain ⟨hI, hC, hc⟩ := inicializarFila_inv fila0
  have ht : (inicializarFila fila0).tamanho.val = 0 := CInt.val_zero
  obtain ⟨fila1, hI1, hC1, hc1, he1⟩ :=
    executar_enfileirar_todas es (List.replicate es.length Operacao.desenfileirar)
      (inicializarFila fila0) hI hC (by rw [ht]; have : es.length ≤ 5 := hk; omega)
  rw [hc, List.nil_append] at hc1
  obtain ⟨fila', he, hI', _, hc'⟩ :=
    executar_desenfileirar_n es.length fila1 hI1 hC1 (by rw [hc1])
  rw [hc1, List.take_length] at he
  rw [hc1, List.drop_length] at hc'
  exact ⟨fila', by rw [he1, he], tamanho_zero_of_conteudo fila' hI' hc'⟩

/-- Three sample pieces through a queue variable that held arbitrary data. -/
theorem fifo_order_witness :
    pecasExemplo.length ≤ CAPACIDADE_FILA ∧
    ∃ fila', executar (inicializarFila (filaBruta pecaNula))
        (pecasExemplo.map Operacao.enfileirar
          ++ List.replicate pecasExemplo.length Operacao.desenfileirar)
          = some (fila', pecasExemplo, []) ∧
      fila'.tamanho.val = 0 :=
  ⟨by decide, fifo_order (filaBruta pecaNula) pecasExemplo (by decide)⟩

/-- C2 (wraparound correctness as a refinement).  For every sequence of `enfileirar` and
`desenfileirar` calls applied to a freshly initialised queue, the run is defined, the
pieces listed by `visualizarFila` are the content of the reference bounded list queue, and
every `desenfileirar` returns the head of the reference list when there is one (and the
null piece when the list is empty).  In the scenario of ids 1 to 5 enqueued, two
dequeues, ids 6 and 7 enqueued, the dequeues return ids 1 and 2 and the listing is
3, 4, 5, 6, 7. -/
theorem wraparound_refinement :
    (∀ (fila0 : FilaCircular) (ops : List Operacao),
      ∃ fila' ps s, executar (inicializarFila fila0) ops = some (fila', ps, s) ∧
        (visualizarFila fila').map listagem = some (refExecutar [] ops).1 ∧
        ps = (refExecutar [] ops).2.map fun o => o.getD pecaNula) ∧
    (∀ (fila0 : FilaCircular) (nome : Nat → String),
      ∃ fila' s, executar (inicializarFila fila0) (cenarioVolta nome)
          = some (fila', [pecaDe 1 (nome 1), pecaDe 2 (nome 2)], s) ∧
        (visualizarFila fila').map listagem
          = some [pecaDe 3 (nome 3), pecaDe 4 (nome 4), pecaDe 5 (nome 5),
                  pecaDe 6 (nome 6), pecaDe 7 (nome 7)]) := by
  have geral : ∀ (fila0 : FilaCircular) (ops : List Operacao),
      ∃ fila' ps s, executar (inicializarFila fila0) ops = some (fila', ps, s) ∧
        (visualizarFila fila').map listagem = some (refExecutar [] ops).1 ∧
        ps = (refExecutar [] ops).2.map fun o => o.getD pecaNula := by
    intro fila0 ops
    obtain ⟨hI, hC, hc⟩ := inicializarFila_inv fila0
    obtain ⟨fila', ps, s, he, hI', _, hc', hp⟩ := executar_refina ops _ hI hC
    rw [hc] at hc' hp
    refine ⟨fila', ps, s, he, ?_, hp⟩
    rw [listagem_visualizarFila fila' hI'.1.1 hI'.1.2 hI'.2.1.1 hI'.2.1.2, hc']
  refine ⟨geral, ?_⟩
  intro fila0 nome
  obtain ⟨fila', ps, s, he, hv, hp⟩ := geral fila0 (cenarioVolta nome)
  refine ⟨fila', s, ?_, ?_⟩
  · rw [he, hp]; rfl
  · rw [hv]; rfl

/-- C3 (capacity invariant).  In every state reached from `inicializarFila` by any
sequence of `enfileirar` and `desenfileirar` calls (rejected calls included) the run is
defined, `0 ≤ tamanho ≤ 5`, `0 ≤ frente < 5` and `0 ≤ tras < 5`; hence the accesses
`elementos[frente]`, `elementos[tras]` and `elementos[(frente + i) % 5]` for
`0 ≤ i < tamanho` are within bounds. -/
theorem capacity_invariant (fila0 : FilaCircular) (ops : List Operacao) :
    ∃ fila' ps s, executar (inicializarFila fila0) ops = some (fila', ps, s) ∧
      (0 ≤ fila'.tamanho.val ∧ fila'.tamanho.val ≤ 5) ∧
      (0 ≤ fila'.frente.val ∧ fila'.frente.val < 5) ∧
      (0 ≤ fila'.tras.val ∧ fila'.tras.val < 5) ∧
      (lerElemento fila'.elementos fila'.frente).isSome ∧
      (∀ p, (escreverElemento fila'.elementos fila'.tras p).isSome) ∧
      (∀ i : CInt, 0 ≤ i.val → i.val < fila'.tamanho.val →
        (lerElemento fila'.elementos
          (CInt.resto (fila'.frente + i) (CInt.ofInt CAPACIDADE_FILA))).isSome) := by
  obtain ⟨hI, hC, _⟩ := inicializarFila_inv fila0
  obtain ⟨fila', ps, s, he, hI', _, _, _⟩ := executar_refina ops _ hI hC
  obtain ⟨⟨ht0, ht5⟩, ⟨hf0, hf5⟩, ⟨hr0, hr5⟩⟩ := hI'
  refine ⟨fila', ps, s, he, ⟨ht0, ht5⟩, ⟨hf0, hf5⟩, ⟨hr0, hr5⟩, ?_, ?_, ?_⟩
  · rw [lerElemento_ok _ hf0 hf5]; rfl
  · intro p; rw [escreverElemento_ok _ p hr0 hr5]; rfl
  · intro i hi0 hit
    have hidx := CInt.val_resto_add hf0 hi0 (by omega : fila'.frente.val + i.val ≤ 2147483647)
    rw [lerElemento_ok _ (by rw [hidx]; omega) (by rw [hidx]; omega)]; rfl

/-- C4 (full rejection).  On a queue with `tamanho == 5`, `enfileirar` prints the
"queue is full" error and returns the queue as it was: `frente`, `tras`, `tamanho` and
all five slots are unchanged. -/
theorem full_rejection (fila : FilaCircular) (p : Peca) (h : fila.tamanho.val = 5) :
    enfileirar fila p = some (fila, [Saida.erroFilaCheia]) :=
  enfileirar_cheia fila p h

/-- A full queue whose front is slot 2 rejects a piece. -/
theorem full_rejection_witness :
    filaCheia.tamanho.val = 5 ∧
    enfileirar filaCheia (pecaDe 9 "Z") = some (filaCheia, [Saida.erroFilaCheia]) :=
  ⟨by decide, full_rejection filaCheia (pecaDe 9 "Z") (by decide)⟩

/-- C5 (empty rejection).  On a queue with `tamanho == 0`, `desenfileirar` prints the
"queue is empty" error, returns the null piece (id 0, empty name) and returns the queue
as it was: `frente`, `tras`, `tamanho` and all slots are unchanged. -/
theorem empty_rejection (fila : FilaCircular) (h : fila.tamanho.val = 0) :
    desenfileirar fila = some (pecaNula, fila, [Saida.erroFilaVazia]) ∧
      pecaNula.id.val = 0 ∧ pecaNula.nome = "" :=
  ⟨desenfileirar_vazia fila h, by decide, by decide⟩

/-- An empty queue whose cursors are at slot 3 rejects a dequeue. -/
theorem empty_rejection_witness :
    filaVazia.tamanho.val = 0 ∧
    (desenfileirar filaVazia = some (pecaNula, filaVazia, [Saida.erroFilaVazia]) ∧
      pecaNula.id.val = 0 ∧ pecaNula.nome = "") :=
  ⟨by decide, empty_rejection filaVazia (by decide)⟩

/-- C6 (a play turn on a full queue).  On a queue that satisfies the invariants of the
data model with `tamanho == 5`, for every value of the supplier's counter and of `rand()`,
the play turn of `main` is defined: `desenfileirar` is accepted (it prints nothing),
`gerarPeca` supplies a piece, `enfileirar` of that piece is accepted, and the resulting
queue has `tamanho == 5`, `frente` advanced to `(frente + 1) mod 5` and `tras` advanced to
`(tras + 1) mod 5`. -/
theorem turn_keeps_full (fila : FilaCircular) (proximoId : CInt) (r : Nat)
    (hI : Invariantes fila) (h5 : fila.tamanho.val = 5) :
    ∃ jogada fila1 nova proximoId1 fila2 s3,
      desenfileirar fila = some (jogada, fila1, []) ∧
      gerarPeca proximoId r = some (nova, proximoId1) ∧
      enfileirar fila1 nova = some (fila2, []) ∧
      visualizarFila fila2 = some s3 ∧
      jogar fila proximoId r
        = some (fila2, proximoId1, [Saida.pecaJogada jogada, Saida.novaPeca nova] ++ s3) ∧
      fila2.tamanho.val = 5 ∧
      fila2.frente.val = (fila.frente.val + 1) % 5 ∧
      fila2.tras.val = (fila.tras.val + 1) % 5 := by
  obtain ⟨⟨ht0, ht5⟩, ⟨hf0, hf5⟩, ⟨hr0, hr5⟩⟩ := hI
  have hd := desenfileirar_ok fila (by omega) hf0 hf5
  obtain ⟨nome, _, hg⟩ := gerarPeca_ok proximoId r
  have htam1 := CInt.val_sub_one (by omega : -2147483648 < fila.tamanho.val)
  have hfr := CInt.val_resto_succ hf0 (by omega : fila.frente.val < 2147483647)
  have htr := CInt.val_resto_succ hr0 (by omega : fila.tras.val < 2147483647)
  have he := enfileirar_ok
    { fila with
      frente := CInt.resto (fila.frente + 1) (CInt.ofInt CAPACIDADE_FILA),
      tamanho := fila.tamanho - 1 } { id := proximoId, nome := nome }
    (by show (fila.tamanho - 1).val ≠ 5; omega) hr0 hr5
  have htam2 : ((fila.tamanho - 1) + 1).val = 5 := by
    rw [CInt.val_add_one (by omega)]; omega
  have hv := visualizarFila_eq
    { elementos := Function.update fila.elementos (indice fila.tras) { id := proximoId, nome := nome },
      frente := CInt.resto (fila.frente + 1) (CInt.ofInt CAPACIDADE_FILA),
      tras := CInt.resto (fila.tras + 1) (CInt.ofInt CAPACIDADE_FILA),
      tamanho := (fila.tamanho - 1) + 1 }
    (by show 0 ≤ ((fila.tamanho - 1) + 1).val; omega)
    (by show ((fila.tamanho - 1) + 1).val ≤ 5; omega)
    (by show 0 ≤ (CInt.resto (fila.frente + 1) (CInt.ofInt CAPACIDADE_FILA)).val; omega)
    (by show (CInt.resto (fila.frente + 1) (CInt.ofInt CAPACIDADE_FILA)).val < 5; omega)
  refine ⟨_, _, _, _, _, _, hd, hg, he, hv, ?_, htam2, hfr, htr⟩
  unfold jogar
  rw [if_pos (by omega), hd]
  simp only [Option.bind_eq_bind, Option.some_bind]
  rw [hg]
  simp only [Option.some_bind]
  rw [he]
  simp only [Option.some_bind]
  rw [hv]
  rfl

/-- A play turn on a full queue with counter 6 and random value 4. -/
theorem turn_keeps_full_witness :
    Invariantes filaCheia ∧ filaCheia.tamanho.val = 5 ∧
    ∃ jogada fila1 nova proximoId1 fila2 s3,
      desenfileirar filaCheia = some (jogada, fila1, []) ∧
      gerarPeca 6 4 = some (nova, proximoId1) ∧
      enfileirar fila1 nova = some (fila2, []) ∧
      visualizarFila fila2 = some s3 ∧
      jogar filaCheia 6 4
        = some (fila2, proximoId1, [Saida.pecaJogada jogada, Saida.novaPeca nova] ++ s3) ∧
      fila2.tamanho.val = 5 ∧
      fila2.frente.val = (filaCheia.frente.val + 1) % 5 ∧
      fila2.tras.val = (filaCheia.tras.val + 1) % 5 :=
  ⟨by decide, by decide, turn_keeps_full filaCheia 6 4 (by decide) (by decide)⟩

/-- C7 as amended (id monotonicity within the `int` range).  From process start
(initialised queue, counter 1), for any interleaving of `gerarPeca` calls with queue calls
and views and any values delivered by `rand()`, if `gerarPeca` is called at most
2147483647 times then the run is defined and the `k`-th call of `gerarPeca` returns a
piece with id `k`, for every `k` from 1 to the number of calls. -/
theorem id_monotonicity_int_range (fila0 : FilaCircular) (cs : List Chamada)
    (h : numGeradas cs ≤ 2147483647) :
    ∃ fila' c' ps, executarChamadas (inicializarFila fila0) 1 cs = some (fila', c', ps) ∧
      ps.length = numGeradas cs ∧
      ps.map (fun p => p.id.val) = (List.range (numGeradas cs)).map fun k : Nat => (k : Int) + 1 := by
  obtain ⟨hI, hC, _⟩ := inicializarFila_inv fila0
  obtain ⟨fila', c', ps, he, _, _, hids⟩ := executarChamadas_ids cs _ 1 hI hC
  have hmap : (List.range (numGeradas cs)).map (fun k : Nat => wrap ((1 : CInt).val + (k : Int)))
      = (List.range (numGeradas cs)).map fun k : Nat => (k : Int) + 1 := by
    apply List.map_congr_left
    intro k hk
    rw [List.mem_range] at hk
    rw [CInt.val_one, wrap_eq_self (by omega) (by omega)]
    omega
  rw [hmap] at hids
  refine ⟨fila', c', ps, he, ?_, hids⟩
  have := congrArg List.length hids
  simpa using this

/-- Three supplier calls interleaved with queue calls and a view return ids 1, 2, 3. -/
theorem id_monotonicity_int_range_witness :
    numGeradas chamadasExemplo ≤ 2147483647 ∧
    ∃ fila' c' ps,
      executarChamadas (inicializarFila (filaBruta pecaNula)) 1 chamadasExemplo
        = some (fila', c', ps) ∧
      ps.length = numGeradas chamadasExemplo ∧
      ps.map (fun p => p.id.val)
        = (List.range (numGeradas chamadasExemplo)).map fun k : Nat => (k : Int) + 1 :=
  ⟨by decide, id_monotonicity_int_range (filaBruta pecaNula) chamadasExemplo (by decide)⟩

/-- C7 as stated fails: from process start, 2147483648 successive calls of `gerarPeca`
are all defined, and the 2147483648-th returns the id -2147483648, not 2147483648 (the
counter is an `int`). -/
theorem id_monotonicity_counterexample :
    ∃ fila' c' ps,
      executarChamadas (inicializarFila (filaBruta pecaNula)) 1
          (List.replicate 2147483648 (Chamada.gerar 0)) = some (fila', c', ps) ∧
      ps.length = 2147483648 ∧
      (ps[2147483647]?).map (fun p => p.id.val) = some (-2147483648) := by
  obtain ⟨hI, hC, _⟩ := inicializarFila_inv (filaBruta pecaNula)
  obtain ⟨fila', c', ps, he, _, _, hids⟩ :=
    executarChamadas_ids (List.replicate 2147483648 (Chamada.gerar 0)) _ 1 hI hC
  rw [numGeradas_replicate] at hids
  refine ⟨fila', c', ps, he, ?_, ?_⟩
  · have := congrArg List.length hids
    simpa using this
  · rw [← List.getElem?_map, hids, List.getElem?_map,
      List.getElem?_range (by omega : 2147483647 < 2147483648)]
    show some (wrap ((1 : CInt).val + ((2147483647 : Nat) : Int))) = some (-2147483648)
    rw [CInt.val_one]
    rfl

/-- C8 (enqueue success effect).  On a queue with `tamanho < 5` and `0 ≤ tras < 5`,
`enfileirar` is accepted (it prints nothing), stores the piece at slot `tras`, sets `tras`
to `(tras + 1) mod 5` and `tamanho` to `tamanho + 1`, and leaves `frente` and every slot
other than the old `tras` unchanged. -/
theorem enqueue_effect (fila : FilaCircular) (p : Peca)
    (ht : fila.tamanho.val < 5) (h0 : 0 ≤ fila.tras.val) (h5 : fila.tras.val < 5) :
    ∃ fila', enfileirar fila p = some (fila', []) ∧
      (∀ j : Fin CAPACIDADE_FILA, (j.val : Int) = fila.tras.val → fila'.elementos j = p) ∧
      fila'.tras.val = (fila.tras.val + 1) % 5 ∧
      fila'.tamanho.val = fila.tamanho.val + 1 ∧
      fila'.frente = fila.frente ∧
      (∀ j : Fin CAPACIDADE_FILA, (j.val : Int) ≠ fila.tras.val →
        fila'.elementos j = fila.elementos j) := by
  have hidx : ∀ j : Fin CAPACIDADE_FILA, (j.val : Int) = fila.tras.val ↔ j = indice fila.tras := by
    intro j
    rw [Fin.ext_iff]
    show _ ↔ j.val = fila.tras.val.toNat % 5
    omega
  refine ⟨_, enfileirar_ok fila p (by omega) h0 h5, ?_, ?_, ?_, rfl, ?_⟩
  · intro j hj
    rw [(hidx j).1 hj]
    exact Function.update_same _ _ _
  · exact CInt.val_resto_succ h0 (by omega)
  · exact CInt.val_add_one (by omega)
  · intro j hj
    exact Function.update_noteq (fun hc => hj ((hidx j).2 hc)) _ _

/-- An accepted enqueue on a queue holding three pieces. -/
theorem enqueue_effect_witness :
    filaParcial.tamanho.val < 5 ∧ 0 ≤ filaParcial.tras.val ∧ filaParcial.tras.val < 5 ∧
    ∃ fila', enfileirar filaParcial (pecaDe 7 "J") = some (fila', []) ∧
      (∀ j : Fin CAPACIDADE_FILA, (j.val : Int) = filaParcial.tras.val →
        fila'.elementos j = pecaDe 7 "J") ∧
      fila'.tras.val = (filaParcial.tras.val + 1) % 5 ∧
      fila'.tamanho.val = filaParcial.tamanho.val + 1 ∧
      fila'.frente = filaParcial.frente ∧
      (∀ j : Fin CAPACIDADE_FILA, (j.val : Int) ≠ filaParcial.tras.val →
        fila'.elementos j = filaParcial.elementos j) :=
  ⟨by decide, by decide, by decide,
    enqueue_effect filaParcial (pecaDe 7 "J") (by decide) (by decide) (by decide)⟩

/-- C9 (dequeue success effect).  On a queue with `tamanho > 0` and `0 ≤ frente < 5`,
`desenfileirar` is accepted (it prints nothing), returns the piece stored at slot
`frente`, sets `frente` to `(frente + 1) mod 5` and `tamanho` to `tamanho - 1`, and
leaves `tras` and all five slots unchanged. -/
theorem dequeue_effect (fila : FilaCircular)
    (ht : 0 < fila.tamanho.val) (h0 : 0 ≤ fila.frente.val) (h5 : fila.frente.val < 5) :
    ∃ p fila', desenfileirar fila = some (p, fila', []) ∧
      (∀ j : Fin CAPACIDADE_FILA, (j.val : Int) = fila.frente.val → p = fila.elementos j) ∧
      fila'.frente.val = (fila.frente.val + 1) % 5 ∧
      fila'.tamanho.val = fila.tamanho.val - 1 ∧
      fila'.tras = fila.tras ∧
      fila'.elementos = fila.elementos := by
  refine ⟨_, _, desenfileirar_ok fila (by omega) h0 h5, ?_, ?_, ?_, rfl, rfl⟩
  · intro j hj
    congr 1
    apply Fin.ext
    show fila.frente.val.toNat % 5 = j.val
    omega
  · exact CInt.val_resto_succ h0 (by omega)
  · exact CInt.val_sub_one (by omega)

/-- An accepted dequeue on a queue holding three pieces. -/
theorem dequeue_effect_witness :
    0 < filaParcial.tamanho.val ∧ 0 ≤ filaParcial.frente.val ∧ filaParcial.frente.val < 5 ∧
    ∃ p fila', desenfileirar filaParcial = some (p, fila', []) ∧
      (∀ j : Fin CAPACIDADE_FILA, (j.val : Int) = filaParcial.frente.val →
        p = filaParcial.elementos j) ∧
      fila'.frente.val = (filaParcial.frente.val + 1) % 5 ∧
      fila'.tamanho.val = filaParcial.tamanho.val - 1 ∧
      fila'.tras = filaParcial.tras ∧
      fila'.elementos = filaParcial.elementos :=
  ⟨by decide, by decide, by decide,
    dequeue_effect filaParcial (by decide) (by decide) (by decide)⟩

/-! ## The view on any queue value -/

theorem tmod_cinco (a : Int) :
    (0 ≤ a → Int.tmod a 5 = a % 5) ∧ (a < 0 → Int.tmod a 5 = -((-a) % 5)) := by
  refine ⟨fun h => Int.tmod_eq_emod h (by decide), fun h => ?_⟩
  cases a with
  | ofNat n => exact absurd h (by simp)
  | negSucc n =>
    show -((n + 1 : Nat) % (5 : Nat) : Nat) = -((-Int.negSucc n) % 5)
    rw [Int.neg_negSucc]
    push_cast
    rfl

/-- The value of C's `a % 5`: below 5, and the mathematical remainder when it is not
negative. -/
theorem val_resto_cinco (a : CInt) :
    (CInt.resto a (CInt.ofInt CAPACIDADE_FILA)).val = Int.tmod a.val 5 ∧
    Int.tmod a.val 5 < 5 ∧ (0 ≤ Int.tmod a.val 5 → Int.tmod a.val 5 = a.val % 5) := by
  have h := tmod_cinco a.val
  have hlt : Int.tmod a.val 5 < 5 ∧ -5 < Int.tmod a.val 5 := by
    by_cases ha : 0 ≤ a.val
    · rw [h.1 ha]; omega
    · rw [h.2 (by omega)]; omega
  refine ⟨?_, hlt.1, fun h0 => ?_⟩
  · rw [CInt.val_resto, CInt.val_capacidade]
    exact wrap_eq_self (by omega) (by omega)
  · by_cases ha : 0 ≤ a.val
    · exact h.1 ha
    · rw [h.2 (by omega)] at h0 ⊢; omega

theorem val_ofInt_nat {k : Nat} (h : (k : Int) ≤ 2147483647) : (CInt.ofInt k).val = k :=
  CInt.val_ofInt_of_range (by omega) h

/-- When the indexes computed by the view up to iteration `k` are not negative, the sum
`frente + k` has not overflowed and the index is the slot `(frente + k) mod 5`. -/
theorem indiceVisto_slot (fila : FilaCircular) (k : Nat) (hk : (k : Int) ≤ 2147483647)
    (hdef : ∀ j : Nat, j ≤ k → 0 ≤ (indiceVisto fila j).val) :
    (indiceVisto fila k).val = (fila.frente.val + (k : Int)) % 5 := by
  have hf := fila.frente.range
  have hno : fila.frente.val + (k : Int) ≤ 2147483647 := by
    by_contra hc
    have hj : ((2147483648 - fila.frente.val).toNat : Int) = 2147483648 - fila.frente.val := by
      omega
    have hle : (2147483648 - fila.frente.val).toNat ≤ k := by omega
    have h0 := hdef _ hle
    unfold indiceVisto at h0
    rw [(val_resto_cinco _).1, CInt.val_add, val_ofInt_nat (by omega), hj] at h0
    have hw : wrap (fila.frente.val + (2147483648 - fila.frente.val)) = -2147483648 := by
      unfold wrap; omega
    rw [hw] at h0
    exact absurd h0 (by decide)
  have h0 := hdef k (Nat.le_refl k)
  unfold indiceVisto at h0 ⊢
  have hs : (fila.frente + CInt.ofInt k).val = fila.frente.val + (k : Int) := by
    rw [CInt.val_add, val_ofInt_nat hk]; exact wrap_eq_self (by omega) hno
  have hr := val_resto_cinco (fila.frente + CInt.ofInt k)
  rw [hr.1] at h0 ⊢
  rw [hr.2.2 h0, hs]

theorem indice_indiceVisto (fila : FilaCircular) (k : Nat) (hk : (k : Int) ≤ 2147483647)
    (hdef : ∀ j : Nat, j ≤ k → 0 ≤ (indiceVisto fila j).val) :
    indice (indiceVisto fila k) = slotOcupado fila k := by
  apply Fin.ext
  show (indiceVisto fila k).val.toNat % 5 = ((fila.frente.val + (k : Int)) % 5).toNat
  rw [indiceVisto_slot fila k hk hdef]
  omega

/-- The loop of `visualizarFila` from iteration `k` on, when none of its reads is out of
bounds. -/
theorem visualizarItens_dentro (fila : FilaCircular) :
    ∀ (n k : Nat), (k : Int) + n ≤ 2147483647 →
      (∀ j : Nat, k ≤ j → j < k + n → 0 ≤ (indiceVisto fila j).val) →
      visualizarItens fila n (CInt.ofInt k) =
        some ((List.range n).map fun j =>
          Saida.item (fila.elementos (indice (indiceVisto fila (k + j))))) := by
  intro n
  induction n with
  | zero => intro k _ _; rfl
  | succ n ih =>
    intro k hkn hdef
    have hk1 : CInt.ofInt k + 1 = CInt.ofInt ((k + 1 : Nat) : Int) := by
      apply CInt.eq_of_val
      rw [CInt.val_add_one (by rw [val_ofInt_nat (by omega)]; push_cast at hkn; omega),
        val_ofInt_nat (by omega), val_ofInt_nat (by push_cast at hkn ⊢; omega)]
      push_cast; rfl
    have h0 := hdef k (Nat.le_refl k) (by omega)
    have h5 : (indiceVisto fila k).val < 5 := by
      unfold indiceVisto
      rw [(val_resto_cinco _).1]; exact (val_resto_cinco _).2.1
    have hrec := ih (k + 1) (by push_cast at hkn ⊢; omega)
      (fun j hj1 hj2 => hdef j (by omega) (by omega))
    unfold visualizarItens
    dsimp only
    rw [hk1, hrec]
    show (lerElemento fila.elementos (indiceVisto fila k)).bind _ = _
    rw [lerElemento_ok _ h0 h5, List.range_succ_eq_map, List.map_cons, List.map_map]
    simp only [Option.bind_eq_bind, Option.some_bind]
    refine congrArg some (congrArg₂ List.cons rfl (congrArg₂ List.map ?_ rfl))
    funext j
    show Saida.item (fila.elementos (indice (indiceVisto fila (k + 1 + j))))
      = Saida.item (fila.elementos (indice (indiceVisto fila (k + (j + 1)))))
    rw [Nat.add_assoc, Nat.add_comm 1 j]

/-- The view of a queue value with `tamanho >= 0` none of whose reads is out of bounds:
it lists the slots `(frente + i) mod 5`, `i` in `[0, tamanho)`. -/
theorem visualizarFila_dentro (fila : FilaCircular) (ht0 : 0 ≤ fila.tamanho.val)
    (hdef : ∀ k : Nat, k < fila.tamanho.val.toNat → 0 ≤ (indiceVisto fila k).val) :
    visualizarFila fila =
      some (if fila.tamanho = 0 then
              [Saida.cabecalho fila.tamanho CAPACIDADE_FILA, Saida.vazia, Saida.separador]
            else
              [Saida.cabecalho fila.tamanho CAPACIDADE_FILA, Saida.inicioLista]
                ++ ((List.range fila.tamanho.val.toNat).map fun i =>
                      fila.elementos (slotOcupado fila i)).map Saida.item
                ++ [Saida.fimLista, Saida.separador]) := by
  have hr := fila.tamanho.range
  unfold visualizarFila
  by_cases h : fila.tamanho = 0
  · rw [if_pos h, if_pos h]
  · rw [if_neg h, if_neg h]
    have hv := visualizarItens_dentro fila fila.tamanho.val.toNat 0 (by omega)
      (fun j _ hj => hdef j (by omega))
    have hz : (0 : CInt) = CInt.ofInt ((0 : Nat) : Int) := rfl
    rw [hz, hv]
    simp only [Option.bind_eq_bind, Option.some_bind, List.map_map, Nat.zero_add]
    refine congrArg some (congrArg₂ HAppend.hAppend
      (congrArg₂ HAppend.hAppend rfl (List.map_congr_left ?_)) rfl)
    intro k hk
    rw [List.mem_range] at hk
    show Saida.item (fila.elementos (indice (indiceVisto fila k))) = _
    rw [indice_indiceVisto fila k (by omega) (fun j hj => hdef j (by omega))]
    rfl

/-- The reads of the view are within bounds whenever `frente` is not negative and the
sums `frente + i` stay within `int`. -/
theorem indiceVisto_nonneg (fila : FilaCircular) (hf0 : 0 ≤ fila.frente.val)
    (hs : fila.frente.val + fila.tamanho.val ≤ 2147483648) (k : Nat)
    (hk : k < fila.tamanho.val.toNat) : 0 ≤ (indiceVisto fila k).val := by
  have hr := fila.tamanho.range
  unfold indiceVisto
  rw [(val_resto_cinco _).1, CInt.val_add, val_ofInt_nat (by omega),
    wrap_eq_self (by omega) (by omega)]
  exact Int.tmod_nonneg _ (by omega)

/-- C10 as amended (the view shows the occupied slots only, on every queue value whose
view reads within the array).  For any two queues with `tamanho >= 0` in which every index
`(frente + i) % 5` computed by `visualizarFila`, `i` in `[0, tamanho)`, is not negative
(every read of `elementos` is within bounds; no upper limit on `frente` or `tamanho`),
that agree on `frente`, on `tamanho` and on the slots `(frente + i) mod 5` for `i` in
`[0, tamanho)`: the output of `visualizarFila` is defined and identical, whatever the other
slots and `tras` hold; it lists those slots in order, exactly `tamanho` entries, and none
when `tamanho == 0`. -/
theorem view_occupied_only_in_bounds (q1 q2 : FilaCircular)
    (ht0 : 0 ≤ q1.tamanho.val)
    (hdef : ∀ k : Nat, k < q1.tamanho.val.toNat → 0 ≤ (indiceVisto q1 k).val)
    (hfr : q1.frente = q2.frente) (htam : q1.tamanho = q2.tamanho)
    (hs : ∀ i : Nat, i < q1.tamanho.val.toNat →
      q1.elementos (slotOcupado q1 i) = q2.elementos (slotOcupado q2 i)) :
    visualizarFila q1 = visualizarFila q2 ∧
    ∃ s, visualizarFila q1 = some s ∧
      listagem s
        = (List.range q1.tamanho.val.toNat).map (fun i => q1.elementos (slotOcupado q1 i)) ∧
      ((listagem s).length : Int) = q1.tamanho.val ∧
      (q1.tamanho.val = 0 → listagem s = []) := by
  have hdef2 : ∀ k : Nat, k < q2.tamanho.val.toNat → 0 ≤ (indiceVisto q2 k).val := by
    intro k hk
    rw [← htam] at hk
    have := hdef k hk
    unfold indiceVisto at this ⊢
    rw [← hfr]; exact this
  have hc : (List.range q1.tamanho.val.toNat).map (fun i => q1.elementos (slotOcupado q1 i))
      = (List.range q2.tamanho.val.toNat).map (fun i => q2.elementos (slotOcupado q2 i)) := by
    rw [← htam]
    apply List.map_congr_left
    intro i hi
    exact hs i (List.mem_range.1 hi)
  have h1 := visualizarFila_dentro q1 ht0 hdef
  have h2 := visualizarFila_dentro q2 (by rw [← htam]; exact ht0) hdef2
  rw [← hc, ← htam] at h2
  have hl : ∀ l : List Peca,
      listagem (if q1.tamanho = 0 then
          [Saida.cabecalho q1.tamanho CAPACIDADE_FILA, Saida.vazia, Saida.separador]
        else [Saida.cabecalho q1.tamanho CAPACIDADE_FILA, Saida.inicioLista]
          ++ l.map Saida.item ++ [Saida.fimLista, Saida.separador])
        = if q1.tamanho = 0 then [] else l := by
    intro l
    by_cases h : q1.tamanho = 0
    · rw [if_pos h, if_pos h]; rfl
    · rw [if_neg h, if_neg h, listagem_append, listagem_append, listagem_map_item]
      show [] ++ l ++ [] = l
      simp
  have hlist : listagem (if q1.tamanho = 0 then
          [Saida.cabecalho q1.tamanho CAPACIDADE_FILA, Saida.vazia, Saida.separador]
        else [Saida.cabecalho q1.tamanho CAPACIDADE_FILA, Saida.inicioLista]
          ++ ((List.range q1.tamanho.val.toNat).map fun i =>
                q1.elementos (slotOcupado q1 i)).map Saida.item
          ++ [Saida.fimLista, Saida.separador])
      = (List.range q1.tamanho.val.toNat).map (fun i => q1.elementos (slotOcupado q1 i)) := by
    rw [hl]
    by_cases h : q1.tamanho = 0
    · rw [if_pos h, h]; rfl
    · rw [if_neg h]
  refine ⟨by rw [h1, h2], _, h1, hlist, ?_, ?_⟩
  · rw [hlist, List.length_map, List.length_range]
    omega
  · intro hz
    rw [hlist, hz]; rfl

/-- Two pairs of queues: one outside the invariants (`frente == 7`, `tamanho == 7`) that
differ in `tras`, and one holding three pieces that differ in `tras` and in a free slot. -/
theorem view_occupied_only_in_bounds_witness :
    (0 ≤ filaLarga.tamanho.val ∧ filaLarga.tamanho.val = 7 ∧ filaLarga.frente.val = 7 ∧
      filaLarga.tras ≠ filaLargaOutra.tras ∧
      (visualizarFila filaLarga = visualizarFila filaLargaOutra ∧
        ∃ s, visualizarFila filaLarga = some s ∧
          listagem s = (List.range filaLarga.tamanho.val.toNat).map
            (fun i => filaLarga.elementos (slotOcupado filaLarga i)) ∧
          ((listagem s).length : Int) = filaLarga.tamanho.val ∧
          (filaLarga.tamanho.val = 0 → listagem s = []))) ∧
    (0 ≤ filaParcial.tamanho.val ∧
      filaParcial.tras ≠ filaParcialOutra.tras ∧
      filaParcial.elementos 1 ≠ filaParcialOutra.elementos 1 ∧
      (visualizarFila filaParcial = visualizarFila filaParcialOutra ∧
        ∃ s, visualizarFila filaParcial = some s ∧
          listagem s = (List.range filaParcial.tamanho.val.toNat).map
            (fun i => filaParcial.elementos (slotOcupado filaParcial i)) ∧
          ((listagem s).length : Int) = filaParcial.tamanho.val ∧
          (filaParcial.tamanho.val = 0 → listagem s = []))) :=
  ⟨⟨by decide, by decide, by decide, by decide,
      view_occupied_only_in_bounds filaLarga filaLargaOutra (by decide)
        (indiceVisto_nonneg filaLarga (by decide) (by decide)) (by decide) (by decide)
        (by decide)⟩,
    ⟨by decide, by decide, by decide,
      view_occupied_only_in_bounds filaParcial filaParcialOutra (by decide) (by decide)
        (by decide) (by decide) (by decide)⟩⟩

/-- C10 as stated fails on queue values outside the data model.  With `tamanho == -1`
the view lists no piece, not `tamanho` of them; with `frente == -3` and `tamanho == 1` the
index `(frente + 0) % 5` is -3, the read is out of bounds and no listing is defined.  (Each
queue agrees with itself on `frente`, `tamanho` and the occupied slots.) -/
theorem view_occupied_only_counterexample :
    (filaTamanhoNegativo.tamanho.val = -1 ∧
      ∃ s, visualizarFila filaTamanhoNegativo = some s ∧ listagem s = [] ∧
        ((listagem s).length : Int) ≠ filaTamanhoNegativo.tamanho.val) ∧
    (filaFrenteNegativa.frente.val = -3 ∧ filaFrenteNegativa.tamanho.val = 1 ∧
      (indiceVisto filaFrenteNegativa 0).val = -3 ∧
      visualizarFila filaFrenteNegativa = none) := by
  refine ⟨⟨by decide, [Saida.cabecalho (CInt.ofInt (-1)) CAPACIDADE_FILA, Saida.inicioLista,
      Saida.fimLista, Saida.separador], by decide, by decide, by decide⟩,
    by decide, by decide, by decide, by decide⟩

/-! ## The view does not change the state -/

theorem iteracaoMenu_visualizar (fila : FilaCircular) (c : CInt) (r : Nat) :
    iteracaoMenu fila c (Entrada.numero 2 r) =
      (visualizarFila fila).map fun s => (fila, c, Saida.menu :: s, true) := by
  have h21 : ¬ ((2 : CInt) = 1) := by decide
  unfold iteracaoMenu
  dsimp only
  rw [if_neg h21, if_pos rfl]
  cases visualizarFila fila <;> rfl

theorem lacoMenu_visualizar (fila : FilaCircular) (c : CInt) (s : List Saida)
    (h : visualizarFila fila = some s) (rs : List Nat) :
    ∃ out, lacoMenu fila c (escolhas 2 rs) = some (fila, c, out) := by
  induction rs with
  | nil => exact ⟨[], rfl⟩
  | cons r rs ih =>
    obtain ⟨out, ho⟩ := ih
    refine ⟨(Saida.menu :: s) ++ out, ?_⟩
    show lacoMenu fila c (Entrada.numero 2 r :: escolhas 2 rs) = _
    rw [lacoMenu, iteracaoMenu_visualizar, h]
    simp only [Option.map_some', Option.bind_eq_bind, Option.some_bind, if_true]
    rw [ho]
    rfl

theorem lacoMenu_visualizar_nao_definida (fila : FilaCircular) (c : CInt)
    (h : visualizarFila fila = none) (r : Nat) (rs : List Nat) :
    lacoMenu fila c (escolhas 2 (r :: rs)) = none := by
  show lacoMenu fila c (Entrada.numero 2 r :: escolhas 2 rs) = _
  rw [lacoMenu, iteracaoMenu_visualizar, h]
  rfl

theorem executarChamadas_visualizar (fila : FilaCircular) (c : CInt) (n : Nat)
    (fila' : FilaCircular) (c' : CInt) (ps : List Peca)
    (h : executarChamadas fila c (List.replicate n Chamada.visualizar) = some (fila', c', ps)) :
    fila' = fila ∧ c' = c ∧ ps = [] := by
  induction n with
  | zero =>
    have h0 : executarChamadas fila c [] = some (fila, c, []) := rfl
    rw [List.replicate_zero, h0] at h
    simp only [Option.some.injEq, Prod.mk.injEq] at h
    exact ⟨h.1.symm, h.2.1.symm, h.2.2.symm⟩
  | succ n ih =>
    rw [List.replicate_succ, executarChamadas] at h
    cases hv : visualizarFila fila with
    | none => rw [hv] at h; exact absurd h (by simp)
    | some s =>
      rw [hv] at h
      exact ih h

/-! ## Where the pieces of the queue come from -/

theorem refExecutar_mem (ops : List Operacao) :
    ∀ (l : List Peca) (x : Peca), x ∈ (refExecutar l ops).1 →
      x ∈ l ∨ x ∈ pecasEnfileiradas ops := by
  induction ops with
  | nil => intro l x hx; exact Or.inl hx
  | cons op ops ih =>
    intro l x hx
    cases op with
    | enfileirar p =>
      have h := ih (refEnfileirar l p) x hx
      show x ∈ l ∨ x ∈ p :: pecasEnfileiradas ops
      rcases h with h | h
      · unfold refEnfileirar at h
        split at h
        · rw [List.mem_append, List.mem_singleton] at h
          rcases h with h | h
          · exact Or.inl h
          · exact Or.inr (by rw [h]; exact List.mem_cons_self _ _)
        · exact Or.inl h
      · exact Or.inr (List.mem_cons_of_mem _ h)
    | desenfileirar =>
      have h := ih (refDesenfileirar l).2 x hx
      show x ∈ l ∨ x ∈ pecasEnfileiradas ops
      rcases h with h | h
      · exact Or.inl (List.mem_of_mem_tail h)
      · exact Or.inr h

/-! ## The initial fill -/

theorem ofInt_val_add (c : CInt) (n : Int) (m : Int) :
    CInt.ofInt ((CInt.ofInt (c.val + n)).val + m) = CInt.ofInt (c.val + (n + m)) := by
  apply CInt.eq_of_val
  rw [CInt.val_ofInt, CInt.val_ofInt, CInt.val_ofInt, wrap_wrap_add, Int.add_assoc]

theorem add_one_eq_ofInt (c : CInt) : c + 1 = CInt.ofInt (c.val + 1) := by
  apply CInt.eq_of_val
  rw [CInt.val_add, CInt.val_one, CInt.val_ofInt]

theorem ofInt_val (c : CInt) : CInt.ofInt c.val = c := by
  apply CInt.eq_of_val
  have := c.range
  rw [CInt.val_ofInt, wrap_eq_self (by omega) (by omega)]

theorem enfileirar_inv (fila : FilaCircular) (p : Peca) (hI : Invariantes fila)
    (h : fila.tamanho.val ≠ 5) :
    ∃ fila', enfileirar fila p = some (fila', []) ∧ Invariantes fila' ∧
      fila'.tamanho.val = fila.tamanho.val + 1 ∧ fila'.frente = fila.frente := by
  obtain ⟨⟨ht0, ht5⟩, ⟨hf0, hf5⟩, ⟨hr0, hr5⟩⟩ := hI
  have htras := CInt.val_resto_succ hr0 (by omega : fila.tras.val < 2147483647)
  have htam := CInt.val_add_one (by omega : fila.tamanho.val < 2147483647)
  refine ⟨_, enfileirar_ok fila p h hr0 hr5, ⟨⟨?_, ?_⟩, ⟨hf0, hf5⟩, ⟨?_, ?_⟩⟩, htam, rfl⟩
  · show 0 ≤ (fila.tamanho + 1).val
    omega
  · show (fila.tamanho + 1).val ≤ 5
    omega
  · show 0 ≤ (CInt.resto (fila.tras + 1) (CInt.ofInt CAPACIDADE_FILA)).val
    omega
  · show (CInt.resto (fila.tras + 1) (CInt.ofInt CAPACIDADE_FILA)).val < 5
    omega

theorem preencherItens_succ (rs : Nat → Nat) (n i : Nat) (fila fila1 : FilaCircular)
    (c : CInt) (p : Peca) (s1 : List Saida)
    (hg : gerarPeca c (rs i) = some (p, c + 1)) (he : enfileirar fila p = some (fila1, s1)) :
    preencherItens rs (n + 1) i fila c =
      (preencherItens rs n (i + 1) fila1 (c + 1)).map fun x => (x.1, x.2.1, s1 ++ x.2.2) := by
  conv_lhs => rw [preencherItens]
  rw [hg]
  simp only [Option.bind_eq_bind, Option.some_bind]
  rw [he]
  simp only [Option.some_bind]
  cases preencherItens rs n (i + 1) fila1 (c + 1) <;> rfl

/-- The loop of `preencherFilaInicial` on any queue within the invariants: it always calls
the supplier once per iteration, and the calls of `enfileirar` made when the queue is
already full are rejected. -/
theorem preencherItens_inv (rs : Nat → Nat) (n : Nat) :
    ∀ (i : Nat) (fila : FilaCircular) (c : CInt), Invariantes fila →
      ∃ fila', preencherItens rs n i fila c
          = some (fila', CInt.ofInt (c.val + n),
              List.replicate (fila.tamanho.val + n - 5).toNat Saida.erroFilaCheia) ∧
        Invariantes fila' ∧ fila'.tamanho.val = min 5 (fila.tamanho.val + n) ∧
        fila'.frente = fila.frente := by
  induction n with
  | zero =>
    intro i fila c hI
    have := hI.1
    refine ⟨fila, ?_, hI, by simp only [Nat.cast_zero, Int.add_zero]; omega, rfl⟩
    have h0 : (fila.tamanho.val + ((0 : Nat) : Int) - 5).toNat = 0 := by omega
    rw [h0]
    show some (fila, c, []) = some (fila, CInt.ofInt (c.val + ((0 : Nat) : Int)), [])
    rw [Nat.cast_zero, Int.add_zero, ofInt_val]
  | succ n ih =>
    intro i fila c hI
    obtain ⟨nome, _, hg⟩ := gerarPeca_ok c (rs i)
    have ht := hI.1
    have hc : CInt.ofInt ((c + 1).val + (n : Int)) = CInt.ofInt (c.val + ((n + 1 : Nat) : Int)) := by
      rw [add_one_eq_ofInt, ofInt_val_add]; congr 2; push_cast; omega
    by_cases h5 : fila.tamanho.val = 5
    · obtain ⟨fila', hp, hI', ht', hf'⟩ := ih (i + 1) fila (c + 1) hI
      refine ⟨fila', ?_, hI', by rw [ht']; push_cast; omega, hf'⟩
      rw [preencherItens_succ rs n i fila fila c _ _ hg (enfileirar_cheia fila _ h5), hp, hc]
      have hk : (fila.tamanho.val + ((n + 1 : Nat) : Int) - 5).toNat
          = (fila.tamanho.val + (n : Int) - 5).toNat + 1 := by push_cast; omega
      rw [hk, List.replicate_succ]
      rfl
    · obtain ⟨fila1, he, hI1, ht1, hf1⟩ := enfileirar_inv fila { id := c, nome := nome } hI h5
      obtain ⟨fila', hp, hI', ht', hf'⟩ := ih (i + 1) fila1 (c + 1) hI1
      refine ⟨fila', ?_, hI', by rw [ht', ht1]; push_cast; omega, by rw [hf', hf1]⟩
      rw [preencherItens_succ rs n i fila fila1 c _ _ hg he, hp, hc]
      have hk : (fila.tamanho.val + ((n + 1 : Nat) : Int) - 5).toNat
          = (fila1.tamanho.val + (n : Int) - 5).toNat := by rw [ht1]; push_cast; omega
      rw [hk]
      rfl

/-- The loop of `preencherFilaInicial` on a consistent queue with room for `n` pieces:
no call is rejected and the pieces generated, whose ids are the successive values of the
counter, are appended to the content in order. -/
theorem preencherItens_conteudo (rs : Nat → Nat) (n : Nat) :
    ∀ (i : Nat) (fila : FilaCircular) (c : CInt), Invariantes fila → Consistente fila →
      fila.tamanho.val + n ≤ 5 →
      ∃ fila' ps, preencherItens rs n i fila c = some (fila', CInt.ofInt (c.val + n), []) ∧
        Invariantes fila' ∧ Consistente fila' ∧ conteudo fila' = conteudo fila ++ ps ∧
        ps.map (fun p => p.id.val) = (List.range n).map fun k : Nat => wrap (c.val + (k : Int)) := by
  induction n with
  | zero =>
    intro i fila c hI hC _
    refine ⟨fila, [], ?_, hI, hC, by rw [List.append_nil], rfl⟩
    show some (fila, c, []) = some (fila, CInt.ofInt (c.val + ((0 : Nat) : Int)), [])
    rw [Nat.cast_zero, Int.add_zero, ofInt_val]
  | succ n ih =>
    intro i fila c hI hC hn
    obtain ⟨nome, _, hg⟩ := gerarPeca_ok c (rs i)
    have ht := hI.1
    have hc : CInt.ofInt ((c + 1).val + (n : Int)) = CInt.ofInt (c.val + ((n + 1 : Nat) : Int)) := by
      rw [add_one_eq_ofInt, ofInt_val_add]; congr 2; push_cast; omega
    obtain ⟨fila1, he, hI1, hC1, hc1⟩ :=
      enfileirar_passo fila { id := c, nome := nome } hI hC (by push_cast at hn; omega)
    have hl1 := conteudo_length fila1
    have hl0 := conteudo_length fila
    rw [hc1, List.length_append, List.length_singleton] at hl1
    have ht1 := hI1.1
    obtain ⟨fila', ps, hp, hI', hC', hc', hids⟩ :=
      ih (i + 1) fila1 (c + 1) hI1 hC1 (by push_cast at hn; omega)
    refine ⟨fila', { id := c, nome := nome } :: ps, ?_, hI', hC', ?_, ?_⟩
    · rw [preencherItens_succ rs n i fila fila1 c _ _ hg he, hp, hc]
      rfl
    · rw [hc', hc1, List.append_assoc]; rfl
    · rw [List.map_cons, hids, List.range_succ_eq_map, List.map_cons, List.map_map]
      refine congrArg₂ List.cons ?_ (congrArg₂ List.map ?_ rfl)
      · show c.val = wrap (c.val + ((0 : Nat) : Int))
        have := c.range
        rw [wrap_eq_self (by omega) (by omega)]; simp
      · funext k
        show wrap ((c + 1).val + (k : Int)) = wrap (c.val + ((k + 1 : Nat) : Int))
        rw [CInt.val_add, CInt.val_one, wrap_wrap_add]
        congr 1; push_cast; omega

/-- The initial fill of a freshly initialised queue, for every value of the counter. -/
theorem preencherFilaInicial_inicial (fila0 : FilaCircular) (c : CInt) (rs : Nat → Nat) :
    ∃ fila', preencherFilaInicial (inicializarFila fila0) c rs
        = some (fila', CInt.ofInt (c.val + 5), [Saida.filaPreenchida CAPACIDADE_FILA]) ∧
      Invariantes fila' ∧ Consistente fila' ∧ fila'.tamanho.val = 5 ∧
      fila'.frente.val = 0 ∧ fila'.tras.val = 0 ∧
      (conteudo fila').map (fun p => p.id.val)
        = (List.range 5).map fun k : Nat => wrap (c.val + (k : Int)) := by
  obtain ⟨hI0, hC0, hc0⟩ := inicializarFila_inv fila0
  have ht0 : (inicializarFila fila0).tamanho.val = 0 := CInt.val_zero
  obtain ⟨fila', ps, hp, hI', hC', hc', hids⟩ :=
    preencherItens_conteudo rs 5 0 (inicializarFila fila0) c hI0 hC0 (by rw [ht0]; decide)
  obtain ⟨fila2, hp2, _, ht2, hf2⟩ := preencherItens_inv rs 5 0 (inicializarFila fila0) c hI0
  rw [hp] at hp2
  simp only [Option.some.injEq, Prod.mk.injEq] at hp2
  have hfe : fila2 = fila' := hp2.1.symm
  rw [hfe] at ht2 hf2
  rw [hc0, List.nil_append] at hc'
  have htam : fila'.tamanho.val = 5 := by rw [ht2, ht0]; decide
  have hfr : fila'.frente.val = 0 := by rw [hf2]; exact CInt.val_zero
  refine ⟨fila', ?_, hI', hC', htam, hfr, ?_, by rw [hc', hids]⟩
  · unfold preencherFilaInicial
    show (preencherItens rs 5 0 (inicializarFila fila0) c).bind _ = _
    rw [hp]
    rfl
  · unfold Consistente at hC'
    rw [hC', htam, hfr]; decide

/-! ## Observations on the output -/

theorem semErro_append {a b : List Saida} (ha : SemErro a) (hb : SemErro b) :
    SemErro (a ++ b) := by
  unfold SemErro at *
  simp only [List.mem_append, not_or]
  exact ⟨⟨ha.1, hb.1⟩, ⟨ha.2.1, hb.2.1⟩, ⟨ha.2.2, hb.2.2⟩⟩

theorem jogadas_append (a b : List Saida) : jogadas (a ++ b) = jogadas a ++ jogadas b := by
  unfold jogadas; rw [List.filterMap_append]

theorem novas_append (a b : List Saida) : novas (a ++ b) = novas a ++ novas b := by
  unfold novas; rw [List.filterMap_append]

theorem semErro_map_item (l : List Peca) : SemErro (l.map Saida.item) := by
  unfold SemErro
  simp

theorem jogadas_map_item (l : List Peca) : jogadas (l.map Saida.item) = [] := by
  induction l with
  | nil => rfl
  | cons a l ih =>
    unfold jogadas at ih ⊢
    rw [List.map_cons, List.filterMap_cons_none (by rfl), ih]

theorem novas_map_item (l : List Peca) : novas (l.map Saida.item) = [] := by
  induction l with
  | nil => rfl
  | cons a l ih =>
    unfold novas at ih ⊢
    rw [List.map_cons, List.filterMap_cons_none (by rfl), ih]

/-- Within the invariants the view is defined; it reports no rejected call and no play. -/
theorem visualizarFila_obs (fila : FilaCircular) (hI : Invariantes fila) :
    ∃ s, visualizarFila fila = some s ∧ SemErro s ∧ jogadas s = [] ∧ novas s = [] ∧
      listagem s = conteudo fila := by
  have hv := visualizarFila_eq fila hI.1.1 hI.1.2 hI.2.1.1 hI.2.1.2
  have hl := listagem_visualizarFila fila hI.1.1 hI.1.2 hI.2.1.1 hI.2.1.2
  rw [hv, Option.map_some', Option.some.injEq] at hl
  refine ⟨_, hv, ?_, ?_, ?_, hl⟩
  · by_cases h : fila.tamanho = 0
    · rw [if_pos h]; unfold SemErro; simp
    · rw [if_neg h]
      exact semErro_append (semErro_append (by unfold SemErro; simp) (semErro_map_item _))
        (by unfold SemErro; simp)
  · by_cases h : fila.tamanho = 0
    · rw [if_pos h]; rfl
    · rw [if_neg h, jogadas_append, jogadas_append, jogadas_map_item]; rfl
  · by_cases h : fila.tamanho = 0
    · rw [if_pos h]; rfl
    · rw [if_neg h, novas_append, novas_append, novas_map_item]; rfl

/-! ## The play turn and the menu loop on a full queue -/

/-- A play turn on a full consistent queue: the front piece is played, a piece with the
counter as id is added at the back, the queue is full again and nothing is rejected. -/
theorem jogar_cheia (fila : FilaCircular) (c : CInt) (r : Nat) (h : Cheia fila) :
    ∃ fila' jogada nova s3, jogar fila c r
        = some (fila', c + 1, [Saida.pecaJogada jogada, Saida.novaPeca nova] ++ s3) ∧
      visualizarFila fila' = some s3 ∧ Cheia fila' ∧ nova.id = c ∧
      conteudo fila ++ [nova] = jogada :: conteudo fila' := by
  obtain ⟨hI, hC, h5⟩ := h
  obtain ⟨fila1, hd, hI1, hC1, hc1⟩ := desenfileirar_passo fila hI hC (by omega)
  obtain ⟨nome, _, hg⟩ := gerarPeca_ok c r
  have hl0 := conteudo_length fila
  have hl1 := conteudo_length fila1
  rw [hc1, List.length_cons] at hl0
  have ht1 := hI1.1
  obtain ⟨fila2, he, hI2, hC2, hc2⟩ :=
    enfileirar_passo fila1 { id := c, nome := nome } hI1 hC1 (by omega)
  have hl2 := conteudo_length fila2
  rw [hc2, List.length_append, List.length_singleton] at hl2
  have ht2 := hI2.1
  obtain ⟨s3, hv, _⟩ := visualizarFila_obs fila2 hI2
  refine ⟨fila2, fila.elementos (indice fila.frente), { id := c, nome := nome }, s3, ?_, hv,
    ⟨hI2, hC2, by omega⟩, rfl, ?_⟩
  · unfold jogar
    rw [if_pos (by omega), hd]
    simp only [Option.bind_eq_bind, Option.some_bind]
    rw [hg]
    simp only [Option.some_bind]
    rw [he]
    simp only [Option.some_bind]
    rw [hv]
    rfl
  · rw [hc1, hc2]; rfl

theorem lacoMenu_cons (fila fila1 : FilaCircular) (c c1 : CInt) (e : Entrada)
    (es : List Entrada) (s1 : List Saida)
    (h : iteracaoMenu fila c e = some (fila1, c1, s1, true)) :
    lacoMenu fila c (e :: es) =
      (lacoMenu fila1 c1 es).map fun x => (x.1, x.2.1, s1 ++ x.2.2) := by
  conv_lhs => rw [lacoMenu]
  rw [h]
  simp only [Option.bind_eq_bind, Option.some_bind, if_true]
  cases lacoMenu fila1 c1 es <;> rfl

theorem lacoMenu_cons_sair (fila fila1 : FilaCircular) (c c1 : CInt) (e : Entrada)
    (es : List Entrada) (s1 : List Saida)
    (h : iteracaoMenu fila c e = some (fila1, c1, s1, false)) :
    lacoMenu fila c (e :: es) = some (fila1, c1, s1) := by
  conv_lhs => rw [lacoMenu]
  rw [h]
  rfl

theorem iteracaoMenu_jogar (fila : FilaCircular) (c : CInt) (r : Nat) :
    iteracaoMenu fila c (Entrada.numero 1 r) =
      (jogar fila c r).map fun x => (x.1, x.2.1, Saida.menu :: x.2.2, true) := by
  unfold iteracaoMenu
  dsimp only
  rw [if_pos rfl]
  cases jogar fila c r <;> rfl

/-- One iteration of the menu loop on a full queue, whatever the input. -/
theorem iteracaoMenu_cheia (fila : FilaCircular) (c : CInt) (e : Entrada) (h : Cheia fila) :
    ∃ fila' c' s continua, iteracaoMenu fila c e = some (fila', c', s, continua) ∧
      Cheia fila' ∧ SemErro s := by
  cases e with
  | naoNumerica => exact ⟨fila, c, [Saida.menu], true, rfl, h, by decide⟩
  | numero opcao r =>
    by_cases h1 : opcao = 1
    · subst h1
      obtain ⟨fila', jogada, nova, s3, hj, hv, hch, _, _⟩ := jogar_cheia fila c r h
      obtain ⟨s, hs, hse, _⟩ := visualizarFila_obs fila' hch.1
      rw [hv, Option.some.injEq] at hs
      subst hs
      refine ⟨fila', c + 1, Saida.menu :: ([Saida.pecaJogada jogada, Saida.novaPeca nova] ++ s3),
        true, ?_, hch, ?_⟩
      · rw [iteracaoMenu_jogar, hj]; rfl
      · exact semErro_append (a := [Saida.menu, Saida.pecaJogada jogada, Saida.novaPeca nova])
          (by unfold SemErro; simp) hse
    · by_cases h2 : opcao = 2
      · subst h2
        obtain ⟨s, hs, hse, _⟩ := visualizarFila_obs fila h.1
        refine ⟨fila, c, Saida.menu :: s, true, ?_, h, ?_⟩
        · rw [iteracaoMenu_visualizar, hs]; rfl
        · exact semErro_append (a := [Saida.menu]) (by decide) hse
      · by_cases h0 : opcao = 0
        · refine ⟨fila, c, [Saida.menu, Saida.saindo], false, ?_, h, by decide⟩
          unfold iteracaoMenu
          dsimp only
          rw [if_neg h1, if_neg h2, if_pos h0]
        · refine ⟨fila, c, [Saida.menu, Saida.opcaoInvalida], true, ?_, h, by decide⟩
          unfold iteracaoMenu
          dsimp only
          rw [if_neg h1, if_neg h2, if_neg h0]

/-- The menu loop on a full queue: defined for every input sequence, the queue is full
at the end and nothing was rejected. -/
theorem lacoMenu_cheia (es : List Entrada) :
    ∀ (fila : FilaCircular) (c : CInt), Cheia fila →
      ∃ fila' c' out, lacoMenu fila c es = some (fila', c', out) ∧ Cheia fila' ∧ SemErro out := by
  induction es with
  | nil => intro fila c h; exact ⟨fila, c, [], rfl, h, by decide⟩
  | cons e es ih =>
    intro fila c h
    obtain ⟨fila1, c1, s1, continua, hi, h1, hs1⟩ := iteracaoMenu_cheia fila c e h
    cases continua with
    | false => exact ⟨fila1, c1, s1, lacoMenu_cons_sair _ _ _ _ _ es _ hi, h1, hs1⟩
    | true =>
      obtain ⟨fila', c', out, hl, h', hs'⟩ := ih fila1 c1 h1
      refine ⟨fila', c', s1 ++ out, ?_, h', semErro_append hs1 hs'⟩
      rw [lacoMenu_cons _ _ _ _ _ es _ hi, hl]; rfl

theorem main_eq (fila0 fila1 fila2 : FilaCircular) (rs : Nat → Nat) (es : List Entrada)
    (c1 c2 : CInt) (s1 s2 s3 : List Saida)
    (hp : preencherFilaInicial (inicializarFila fila0) 1 rs = some (fila1, c1, s1))
    (hv : visualizarFila fila1 = some s2)
    (hl : lacoMenu fila1 c1 es = some (fila2, c2, s3)) :
    main fila0 rs es = some (fila2, c2, s1 ++ s2 ++ s3) := by
  unfold main
  dsimp only
  rw [hp]
  simp only [Option.bind_eq_bind, Option.some_bind]
  rw [hv]
  simp only [Option.some_bind]
  rw [hl]
  rfl

/-- A run of play turns on a full queue: the content followed by the pieces added is the
pieces played followed by the final content, and the ids of the pieces added are the
successive values of the counter. -/
theorem lacoMenu_turnos (rs : List Nat) :
    ∀ (fila : FilaCircular) (c : CInt), Cheia fila →
      ∃ fila' out, lacoMenu fila c (escolhas 1 rs)
          = some (fila', CInt.ofInt (c.val + rs.length), out) ∧
        Cheia fila' ∧
        conteudo fila ++ novas out = jogadas out ++ conteudo fila' ∧
        (jogadas out).length = rs.length ∧
        (novas out).map (fun p => p.id.val)
          = (List.range rs.length).map fun k : Nat => wrap (c.val + (k : Int)) := by
  induction rs with
  | nil =>
    intro fila c h
    refine ⟨fila, [], ?_, h, by simp [novas, jogadas], rfl, rfl⟩
    show some (fila, c, []) = some (fila, CInt.ofInt (c.val + ((0 : Nat) : Int)), [])
    rw [Nat.cast_zero, Int.add_zero, ofInt_val]
  | cons r rs ih =>
    intro fila c h
    obtain ⟨fila1, jogada, nova, s3, hj, hv, hch, hid, hcont⟩ := jogar_cheia fila c r h
    obtain ⟨s, hs, _, hjs, hns, _⟩ := visualizarFila_obs fila1 hch.1
    rw [hv, Option.some.injEq] at hs
    subst hs
    obtain ⟨fila', out, hl, hch', hst, hlen, hids⟩ := ih fila1 (c + 1) hch
    have hc : CInt.ofInt ((c + 1).val + (rs.length : Int))
        = CInt.ofInt (c.val + (((r :: rs).length : Nat) : Int)) := by
      rw [add_one_eq_ofInt, ofInt_val_add, List.length_cons]; congr 2; push_cast; omega
    have hit : iteracaoMenu fila c (Entrada.numero 1 r)
        = some (fila1, c + 1,
            Saida.menu :: ([Saida.pecaJogada jogada, Saida.novaPeca nova] ++ s3), true) := by
      rw [iteracaoMenu_jogar, hj]; rfl
    have hjog : jogadas (Saida.menu :: ([Saida.pecaJogada jogada, Saida.novaPeca nova] ++ s3)
        ++ out) = jogada :: jogadas out := by
      rw [jogadas_append]
      show jogadas ([Saida.menu, Saida.pecaJogada jogada, Saida.novaPeca nova] ++ s3) ++ _ = _
      rw [jogadas_append, hjs]; rfl
    have hnov : novas (Saida.menu :: ([Saida.pecaJogada jogada, Saida.novaPeca nova] ++ s3)
        ++ out) = nova :: novas out := by
      rw [novas_append]
      show novas ([Saida.menu, Saida.pecaJogada jogada, Saida.novaPeca nova] ++ s3) ++ _ = _
      rw [novas_append, hns]; rfl
    refine ⟨fila', Saida.menu :: ([Saida.pecaJogada jogada, Saida.novaPeca nova] ++ s3) ++ out,
      ?_, hch', ?_, ?_, ?_⟩
    · show lacoMenu fila c (Entrada.numero 1 r :: escolhas 1 rs) = _
      rw [lacoMenu_cons _ _ _ _ _ _ _ hit, hl, hc]; rfl
    · rw [hjog, hnov, List.cons_append, ← hst]
      have e : conteudo fila ++ nova :: novas out = (conteudo fila ++ [nova]) ++ novas out := by
        rw [List.append_assoc]; rfl
      rw [e, hcont]; rfl
    · rw [hjog, List.length_cons, hlen, List.length_cons]
    · rw [hnov, List.map_cons, hids, hid, List.length_cons, List.range_succ_eq_map,
        List.map_cons, List.map_map]
      refine congrArg₂ List.cons ?_ (congrArg₂ List.map ?_ rfl)
      · show c.val = wrap (c.val + ((0 : Nat) : Int))
        have := c.range
        rw [wrap_eq_self (by omega) (by omega)]; simp
      · funext k
        show wrap ((c + 1).val + (k : Int)) = wrap (c.val + ((k + 1 : Nat) : Int))
        rw [CInt.val_add, CInt.val_one, wrap_wrap_add]
        congr 1; push_cast; omega

/-- The ids 1 to 5 followed by the ids 6 to `t + 5` are the ids 1 to `t` followed by the
ids `t + 1` to `t + 5`. -/
theorem ids_janela (t : Nat) :
    (List.range 5).map (fun k : Nat => (k : Int) + 1)
        ++ (List.range t).map (fun k : Nat => (k : Int) + 6)
      = (List.range t).map (fun k : Nat => (k : Int) + 1)
        ++ [(t : Int) + 1, (t : Int) + 2, (t : Int) + 3, (t : Int) + 4, (t : Int) + 5] := by
  have h1 : (List.range (5 + t)).map (fun k : Nat => (k : Int) + 1)
      = (List.range 5).map (fun k : Nat => (k : Int) + 1)
        ++ (List.range t).map (fun k : Nat => (k : Int) + 6) := by
    rw [List.range_add, List.map_append, List.map_map]
    refine congrArg₂ HAppend.hAppend rfl (congrArg₂ List.map ?_ rfl)
    funext k
    show ((5 + k : Nat) : Int) + 1 = (k : Int) + 6
    push_cast; omega
  have h2 : (List.range (t + 5)).map (fun k : Nat => (k : Int) + 1)
      = (List.range t).map (fun k : Nat => (k : Int) + 1)
        ++ [(t : Int) + 1, (t : Int) + 2, (t : Int) + 3, (t : Int) + 4, (t : Int) + 5] := by
    rw [List.range_add, List.map_append, List.map_map]
    refine congrArg₂ HAppend.hAppend rfl ?_
    show [((t + 0 : Nat) : Int) + 1, ((t + 1 : Nat) : Int) + 1, ((t + 2 : Nat) : Int) + 1,
      ((t + 3 : Nat) : Int) + 1, ((t + 4 : Nat) : Int) + 1] = _
    push_cast
    simp only [Int.add_zero, Int.add_assoc]
    rfl
  rw [← h1, ← h2, Nat.add_comm]

/-! ## Properties of the supplier, the initial fill and the driver -/

/-- C11 (peek non-mutation).  For every queue state and counter value, any number of
view actions (option 2 of the menu, and direct calls of `visualizarFila`) that runs leaves
`frente`, `tras`, `tamanho`, all slots and the supplier's counter as they were; and it
runs whenever one call of `visualizarFila` on that queue is defined. -/
theorem peek_non_mutation (fila : FilaCircular) (proximoId : CInt) (rs : List Nat) (n : Nat) :
    (∀ fila' c' out, lacoMenu fila proximoId (escolhas 2 rs) = some (fila', c', out) →
      fila' = fila ∧ c' = proximoId) ∧
    (∀ s, visualizarFila fila = some s →
      ∃ out, lacoMenu fila proximoId (escolhas 2 rs) = some (fila, proximoId, out)) ∧
    (∀ fila' c' ps,
      executarChamadas fila proximoId (List.replicate n Chamada.visualizar)
        = some (fila', c', ps) →
      fila' = fila ∧ c' = proximoId) := by
  refine ⟨?_, ?_, ?_⟩
  · intro fila' c' out h
    cases hv : visualizarFila fila with
    | some s =>
      obtain ⟨out0, h0⟩ := lacoMenu_visualizar fila proximoId s hv rs
      rw [h0] at h
      simp only [Option.some.injEq, Prod.mk.injEq] at h
      exact ⟨h.1.symm, h.2.1.symm⟩
    | none =>
      cases rs with
      | nil =>
        have h0 : lacoMenu fila proximoId (escolhas 2 []) = some (fila, proximoId, []) := rfl
        rw [h0] at h
        simp only [Option.some.injEq, Prod.mk.injEq] at h
        exact ⟨h.1.symm, h.2.1.symm⟩
      | cons r rs =>
        rw [lacoMenu_visualizar_nao_definida fila proximoId hv r rs] at h
        exact absurd h (by simp)
  · intro s hs
    exact lacoMenu_visualizar fila proximoId s hs rs
  · intro fila' c' ps h
    have := executarChamadas_visualizar fila proximoId n fila' c' ps h
    exact ⟨this.1, this.2.1⟩

/-- C12 as amended (startup fill within the `int` range).  Applied to a freshly
initialised queue with the supplier's counter equal to `c`, where `c + 4` does not exceed
2147483647, `preencherFilaInicial` is defined, prints only its closing line (no
`enfileirar` is rejected), leaves the counter at `c + 5` in `int` arithmetic, and yields
`tamanho == 5`, `frente == 0`, `tras == 0` and a listing whose ids are
`c, c+1, c+2, c+3, c+4` in that order. -/
theorem startup_fill_int_range (fila0 : FilaCircular) (c : CInt) (rs : Nat → Nat)
    (hc : c.val + 4 ≤ 2147483647) :
    ∃ fila', preencherFilaInicial (inicializarFila fila0) c rs
        = some (fila', CInt.ofInt (c.val + 5), [Saida.filaPreenchida CAPACIDADE_FILA]) ∧
      fila'.tamanho.val = 5 ∧ fila'.frente.val = 0 ∧ fila'.tras.val = 0 ∧
      (visualizarFila fila').map (fun s => (listagem s).map fun p => p.id.val)
        = some [c.val, c.val + 1, c.val + 2, c.val + 3, c.val + 4] := by
  obtain ⟨fila', hp, hI', _, htam, hfr, htr, hids⟩ := preencherFilaInicial_inicial fila0 c rs
  refine ⟨fila', hp, htam, hfr, htr, ?_⟩
  have hl := listagem_visualizarFila fila' hI'.1.1 hI'.1.2 hI'.2.1.1 hI'.2.1.2
  cases hv : visualizarFila fila' with
  | none => rw [hv] at hl; exact absurd hl (by simp)
  | some s =>
    rw [hv, Option.map_some', Option.some.injEq] at hl
    rw [Option.map_some', hl, hids]
    have := c.range
    have e : ∀ k : Int, 0 ≤ k → k ≤ 4 → wrap (c.val + k) = c.val + k :=
      fun k h0 h4 => wrap_eq_self (by omega) (by omega)
    show some [wrap (c.val + ((0 : Nat) : Int)), wrap (c.val + ((1 : Nat) : Int)),
      wrap (c.val + ((2 : Nat) : Int)), wrap (c.val + ((3 : Nat) : Int)),
      wrap (c.val + ((4 : Nat) : Int))] = _
    rw [e _ (by decide) (by decide), e _ (by decide) (by decide), e _ (by decide) (by decide),
      e _ (by decide) (by decide), e _ (by decide) (by decide)]
    simp

/-- At process start the counter is 1 and the listing has ids 1 to 5. -/
theorem startup_fill_int_range_witness :
    (1 : CInt).val + 4 ≤ 2147483647 ∧
    ∃ fila', preencherFilaInicial (inicializarFila (filaBruta pecaNula)) 1 (fun i => i)
        = some (fila', CInt.ofInt ((1 : CInt).val + 5), [Saida.filaPreenchida CAPACIDADE_FILA]) ∧
      fila'.tamanho.val = 5 ∧ fila'.frente.val = 0 ∧ fila'.tras.val = 0 ∧
      (visualizarFila fila').map (fun s => (listagem s).map fun p => p.id.val)
        = some [(1 : CInt).val, (1 : CInt).val + 1, (1 : CInt).val + 2, (1 : CInt).val + 3,
                (1 : CInt).val + 4] :=
  ⟨by decide, startup_fill_int_range (filaBruta pecaNula) 1 (fun i => i) (by decide)⟩

/-- C12 as stated fails: with the counter at 2147483647 the initial fill lists the ids
2147483647, -2147483648, -2147483647, -2147483646, -2147483645, not `c+1` to `c+4`. -/
theorem startup_fill_counterexample :
    (preencherFilaInicial (inicializarFila (filaBruta pecaNula)) (CInt.ofInt 2147483647)
        (fun _ => 0)).bind
      (fun x => (visualizarFila x.1).map fun s => (listagem s).map fun p => p.id.val)
      = some [2147483647, -2147483648, -2147483647, -2147483646, -2147483645] := by
  decide

/-- C13 (piece type membership).  For every counter value and every value `r` delivered
by `rand()`, `gerarPeca` is defined: the index `r % 7` is within the 7-entry table, the
name copied is that table entry, one of the one-character symbols I, O, T, L, J, S, Z, and
it fits the two bytes of `nome` with its terminator. -/
theorem piece_type_membership (proximoId : CInt) (r : Nat) :
    ∃ nome, gerarPeca proximoId r = some ({ id := proximoId, nome := nome }, proximoId + 1) ∧
      nome ∈ ["I", "O", "T", "L", "J", "S", "Z"] ∧
      nome.length = 1 ∧
      tipos.length = 7 ∧ r % 7 < tipos.length ∧ tipos[r % 7]? = some nome ∧
      nome.utf8ByteSize + 1 ≤ 2 := by
  have hlt : r % 7 < 7 := Nat.mod_lt _ (by decide)
  have hg : gerarPeca proximoId r
      = (tipos[r % 7]?).bind fun tipo => (copiarNome tipo).bind fun nome =>
          some ({ id := proximoId, nome := nome }, proximoId + 1) := rfl
  rw [hg]
  generalize r % 7 = k at hlt
  interval_cases k
  · exact ⟨"I", rfl, by decide, by decide, by decide, by decide, by decide, by decide⟩
  · exact ⟨"O", rfl, by decide, by decide, by decide, by decide, by decide, by decide⟩
  · exact ⟨"T", rfl, by decide, by decide, by decide, by decide, by decide, by decide⟩
  · exact ⟨"L", rfl, by decide, by decide, by decide, by decide, by decide, by decide⟩
  · exact ⟨"J", rfl, by decide, by decide, by decide, by decide, by decide, by decide⟩
  · exact ⟨"S", rfl, by decide, by decide, by decide, by decide, by decide, by decide⟩
  · exact ⟨"Z", rfl, by decide, by decide, by decide, by decide, by decide, by decide⟩

/-- C14 (protocol invariant of the driver).  For every content of the queue variable
before initialisation, all values of `rand()` and every finite sequence of inputs of the
menu (options 1, 2, 0, any other number, input that is not a number), `main` is defined,
the queue has `tamanho == 5` after the last action processed, and the output contains
neither the "queue is full" error of `enfileirar`, nor the "queue is empty" error of
`desenfileirar`, nor the "queue is empty" line of option 1. -/
theorem driver_protocol (fila0 : FilaCircular) (rs : Nat → Nat) (entradas : List Entrada) :
    ∃ fila' c' out, main fila0 rs entradas = some (fila', c', out) ∧
      fila'.tamanho.val = 5 ∧
      Saida.erroFilaCheia ∉ out ∧ Saida.erroFilaVazia ∉ out ∧ Saida.acaoNaoRealizada ∉ out := by
  obtain ⟨fila1, hp, hI1, hC1, ht1, _, _, _⟩ := preencherFilaInicial_inicial fila0 1 rs
  obtain ⟨s2, hv, hs2, _⟩ := visualizarFila_obs fila1 hI1
  obtain ⟨fila2, c2, s3, hl, hch, hs3⟩ := lacoMenu_cheia entradas fila1 _ ⟨hI1, hC1, ht1⟩
  have hs : SemErro ([Saida.filaPreenchida CAPACIDADE_FILA] ++ s2 ++ s3) :=
    semErro_append (semErro_append (by decide) hs2) hs3
  exact ⟨fila2, c2, _, main_eq fila0 fila1 fila2 rs entradas _ c2 _ s2 s3 hp hv hl,
    hch.2.2, hs.1, hs.2.1, hs.2.2⟩

/-- C15 as amended (fill on a partially filled queue).  On every queue within the
invariants of the data model, `preencherFilaInicial` is defined and ends with
`tamanho == 5` and `frente` unchanged; it calls the supplier in each of its 5 iterations
whatever `tamanho` was (the counter advances by 5 in `int` arithmetic), and as many
`enfileirar` calls as the queue held pieces are rejected with the "queue is full" error,
their pieces being dropped. -/
theorem fill_partial_fixed_count (fila : FilaCircular) (c : CInt) (rs : Nat → Nat)
    (hI : Invariantes fila) :
    ∃ fila', preencherFilaInicial fila c rs
        = some (fila', CInt.ofInt (c.val + 5),
            List.replicate fila.tamanho.val.toNat Saida.erroFilaCheia
              ++ [Saida.filaPreenchida CAPACIDADE_FILA]) ∧
      fila'.tamanho.val = 5 ∧ fila'.frente = fila.frente := by
  obtain ⟨fila', hp, _, ht, hf⟩ := preencherItens_inv rs 5 0 fila c hI
  have ht0 := hI.1
  refine ⟨fila', ?_, by rw [ht]; push_cast; omega, hf⟩
  unfold preencherFilaInicial
  show (preencherItens rs 5 0 fila c).bind _ = _
  rw [hp]
  have hk : (fila.tamanho.val + ((5 : Nat) : Int) - 5).toNat = fila.tamanho.val.toNat := by
    push_cast; omega
  rw [hk]
  rfl

/-- A queue holding three pieces: three of the five generated pieces are rejected. -/
theorem fill_partial_fixed_count_witness :
    Invariantes filaParcial ∧
    ∃ fila', preencherFilaInicial filaParcial 1 (fun i => i)
        = some (fila', CInt.ofInt ((1 : CInt).val + 5),
            List.replicate filaParcial.tamanho.val.toNat Saida.erroFilaCheia
              ++ [Saida.filaPreenchida CAPACIDADE_FILA]) ∧
      fila'.tamanho.val = 5 ∧ fila'.frente = filaParcial.frente :=
  ⟨by decide, fill_partial_fixed_count filaParcial 1 (fun i => i) (by decide)⟩

/-- C15 as stated fails: on a queue within the invariants that holds three pieces, the
fill started with the counter at 1 leaves the counter at 6 (five supplier calls, not
two), prints the "queue is full" error three times, and the final listing holds the three
old pieces (ids 13, 14, 10) and the ids 1 and 2 only: the pieces with ids 3, 4 and 5 were
generated and dropped. -/
theorem fill_partial_counterexample :
    Invariantes filaParcial ∧ filaParcial.tamanho.val = 3 ∧
    (preencherFilaInicial filaParcial 1 (fun i => i)).bind
      (fun x => (visualizarFila x.1).map fun s =>
        (x.1.tamanho.val, x.2.1.val, x.2.2.count Saida.erroFilaCheia,
          (listagem s).map fun p => p.id.val))
      = some (5, 6, 3, [13, 14, 10, 1, 2]) := by
  decide

/-- C16 (cursor consistency).  In every state reached from `inicializarFila` by any
sequence of `enfileirar` and `desenfileirar` calls, `tras == (frente + tamanho) mod 5`;
consequently an accepted `enfileirar` changes the single slot `tras`, which is none of
the occupied slots `(frente + i) mod 5`, `i` in `[0, tamanho)`: every piece not yet
dequeued stays in its slot and the new piece comes last. -/
theorem cursor_consistency (fila0 : FilaCircular) (ops : List Operacao) :
    ∃ fila ps s, executar (inicializarFila fila0) ops = some (fila, ps, s) ∧
      fila.tras.val = (fila.frente.val + fila.tamanho.val) % 5 ∧
      ∀ p, fila.tamanho.val < 5 →
        ∃ fila', enfileirar fila p = some (fila', []) ∧
          fila'.elementos = Function.update fila.elementos (indice fila.tras) p ∧
          (∀ i, i < fila.tamanho.val.toNat →
            posicao fila i ≠ indice fila.tras ∧
            fila'.elementos (posicao fila i) = fila.elementos (posicao fila i)) ∧
          conteudo fila' = conteudo fila ++ [p] := by
  obtain ⟨hI0, hC0, _⟩ := inicializarFila_inv fila0
  obtain ⟨fila, ps, s, he, hI, hC, _, _⟩ := executar_refina ops _ hI0 hC0
  refine ⟨fila, ps, s, he, hC, ?_⟩
  intro p ht
  obtain ⟨fila', h1, _, _, hc1⟩ := enfileirar_passo fila p hI hC (by omega)
  obtain ⟨⟨ht0, ht5⟩, ⟨hf0, hf5⟩, ⟨hr0, hr5⟩⟩ := hI
  have hexp := enfileirar_ok fila p (by omega) hr0 hr5
  rw [hexp] at h1
  simp only [Option.some.injEq, Prod.mk.injEq, and_true] at h1
  subst h1
  refine ⟨_, hexp, rfl, ?_, hc1⟩
  intro i hi
  have hne : posicao fila i ≠ indice fila.tras := by
    intro hc
    have hv : (fila.frente.val.toNat + i) % 5 = fila.tras.val.toNat % 5 := congrArg Fin.val hc
    unfold Consistente at hC
    omega
  exact ⟨hne, Function.update_noteq hne _ _⟩

/-- C17 (sliding window of ids).  After process start followed by exactly `t` play turns,
where `t + 5` does not exceed 2147483647, `main` is defined, the listing of the queue has
the ids `t+1, t+2, t+3, t+4, t+5`, strictly increasing front to back; the pieces played
by the turns have the ids `1, ..., t` in order (the `k`-th turn plays id `k`) and the
pieces added have the ids `6, ..., t+5` (the `k`-th turn adds id `k+5`). -/
theorem sliding_window (fila0 : FilaCircular) (rs0 : Nat → Nat) (rs : List Nat)
    (ht : (rs.length : Int) + 5 ≤ 2147483647) :
    ∃ fila' c' out s, main fila0 rs0 (escolhas 1 rs) = some (fila', c', out) ∧
      visualizarFila fila' = some s ∧
      (listagem s).map (fun p => p.id.val)
        = [(rs.length : Int) + 1, (rs.length : Int) + 2, (rs.length : Int) + 3,
           (rs.length : Int) + 4, (rs.length : Int) + 5] ∧
      (listagem s).Pairwise (fun a b => a.id.val < b.id.val) ∧
      (jogadas out).map (fun p => p.id.val)
        = (List.range rs.length).map (fun k : Nat => (k : Int) + 1) ∧
      (novas out).map (fun p => p.id.val)
        = (List.range rs.length).map (fun k : Nat => (k : Int) + 6) := by
  obtain ⟨fila1, hp, hI1, hC1, ht1, _, _, hids1⟩ := preencherFilaInicial_inicial fila0 1 rs0
  obtain ⟨s2, hv2, _, hj2, hn2, _⟩ := visualizarFila_obs fila1 hI1
  obtain ⟨fila2, s3, hl, hch, hst, hlen, hids3⟩ :=
    lacoMenu_turnos rs fila1 (CInt.ofInt ((1 : CInt).val + 5)) ⟨hI1, hC1, ht1⟩
  obtain ⟨s, hv, _, _, _, hls⟩ := visualizarFila_obs fila2 hch.1
  have hc6 : (CInt.ofInt ((1 : CInt).val + 5)).val = 6 := by decide
  have e1 : (List.range 5).map (fun k : Nat => wrap ((1 : CInt).val + (k : Int)))
      = (List.range 5).map (fun k : Nat => (k : Int) + 1) := by decide
  have e3 : (List.range rs.length).map
        (fun k : Nat => wrap ((CInt.ofInt ((1 : CInt).val + 5)).val + (k : Int)))
      = (List.range rs.length).map (fun k : Nat => (k : Int) + 6) := by
    apply List.map_congr_left
    intro k hk
    rw [List.mem_range] at hk
    rw [hc6, wrap_eq_self (by omega) (by omega)]
    omega
  rw [e1] at hids1
  rw [e3] at hids3
  have hstream := congrArg (List.map fun p : Peca => p.id.val) hst
  rw [List.map_append, List.map_append, hids1, hids3, ids_janela] at hstream
  obtain ⟨hjog, hcon⟩ := List.append_inj hstream
    (by rw [List.length_map, List.length_range, List.length_map, hlen])
  have hout : jogadas ([Saida.filaPreenchida CAPACIDADE_FILA] ++ s2 ++ s3) = jogadas s3 := by
    rw [jogadas_append, jogadas_append, hj2]; rfl
  have hout2 : novas ([Saida.filaPreenchida CAPACIDADE_FILA] ++ s2 ++ s3) = novas s3 := by
    rw [novas_append, novas_append, hn2]; rfl
  refine ⟨fila2, _, _, s, main_eq fila0 fila1 fila2 rs0 _ _ _ _ s2 s3 hp hv2 hl, hv, ?_, ?_,
    ?_, ?_⟩
  · rw [hls, ← hcon]
  · have hm : ((listagem s).map fun p => p.id.val).Pairwise (· < ·) := by
      rw [hls, ← hcon]
      simp only [List.pairwise_cons, List.mem_cons, List.mem_singleton, List.not_mem_nil,
        List.Pairwise.nil, and_true, forall_eq_or_imp, forall_eq, false_imp_iff, implies_true]
      omega
    exact (List.pairwise_map.1 hm)
  · rw [hout, ← hjog]
  · rw [hout2, hids3]

/-- Three play turns after process start: the listing has ids 4 to 8. -/
theorem sliding_window_witness :
    (([3, 0, 12] : List Nat).length : Int) + 5 ≤ 2147483647 ∧
    ∃ fila' c' out s, main (filaBruta pecaNula) (fun i => i) (escolhas 1 [3, 0, 12])
        = some (fila', c', out) ∧
      visualizarFila fila' = some s ∧
      (listagem s).map (fun p => p.id.val)
        = [(([3, 0, 12] : List Nat).length : Int) + 1, (([3, 0, 12] : List Nat).length : Int) + 2,
           (([3, 0, 12] : List Nat).length : Int) + 3, (([3, 0, 12] : List Nat).length : Int) + 4,
           (([3, 0, 12] : List Nat).length : Int) + 5] ∧
      (listagem s).Pairwise (fun a b => a.id.val < b.id.val) ∧
      (jogadas out).map (fun p => p.id.val)
        = (List.range ([3, 0, 12] : List Nat).length).map (fun k : Nat => (k : Int) + 1) ∧
      (novas out).map (fun p => p.id.val)
        = (List.range ([3, 0, 12] : List Nat).length).map (fun k : Nat => (k : Int) + 6) :=
  ⟨by decide, sliding_window (filaBruta pecaNula) (fun i => i) [3, 0, 12] (by decide)⟩

/-- C18 (the null piece is unambiguous for supplied pieces).  In every state reached from
`inicializarFila` by `enfileirar` and `desenfileirar` calls in which every enqueued piece
has `id >= 1`, as the pieces of `gerarPeca` have, `desenfileirar` is defined and the piece
it returns has `id == 0` if and only if `tamanho == 0` before the call. -/
theorem sentinel_unambiguous (fila0 : FilaCircular) (ops : List Operacao)
    (hid : ∀ p ∈ pecasEnfileiradas ops, 1 ≤ p.id.val) :
    ∃ fila ps s, executar (inicializarFila fila0) ops = some (fila, ps, s) ∧
      ∃ p fila' s', desenfileirar fila = some (p, fila', s') ∧
        (p.id.val = 0 ↔ fila.tamanho.val = 0) := by
  obtain ⟨hI0, hC0, hc0⟩ := inicializarFila_inv fila0
  obtain ⟨fila, ps, s, he, hI, hC, hc, _⟩ := executar_refina ops _ hI0 hC0
  rw [hc0] at hc
  refine ⟨fila, ps, s, he, ?_⟩
  by_cases ht : fila.tamanho.val = 0
  · exact ⟨_, _, _, desenfileirar_vazia fila ht, fun _ => ht, fun _ => by decide⟩
  · obtain ⟨fila', hd, _, _, hcd⟩ := desenfileirar_passo fila hI hC ht
    refine ⟨_, _, _, hd, fun h0 => ?_, fun h0 => absurd h0 ht⟩
    have hmem : fila.elementos (indice fila.frente) ∈ (refExecutar [] ops).1 := by
      rw [← hc, hcd]; exact List.mem_cons_self _ _
    rcases refExecutar_mem ops [] _ hmem with h | h
    · exact absurd h (List.not_mem_nil _)
    · have := hid _ h
      omega

/-- Pieces with ids 1, 2, 3 go through the queue; the next dequeue returns id 2. -/
theorem sentinel_unambiguous_witness :
    (∀ p ∈ pecasEnfileiradas operacoesExemplo, 1 ≤ p.id.val) ∧
    ∃ fila ps s, executar (inicializarFila (filaBruta pecaNula)) operacoesExemplo
        = some (fila, ps, s) ∧
      ∃ p fila' s', desenfileirar fila = some (p, fila', s') ∧
        (p.id.val = 0 ↔ fila.tamanho.val = 0) :=
  ⟨by decide, sentinel_unambiguous (filaBruta pecaNula) operacoesExemplo (by decide)⟩

/-- C19 (enqueue and dequeue commute away from the boundaries).  In every state reached
from `inicializarFila` by `enfileirar` and `desenfileirar` calls, for every piece `p`:
when `0 < tamanho < 5`, `enfileirar(p)` then `desenfileirar` and `desenfileirar` then
`enfileirar(p)` are both accepted, return the same piece and end in the same queue
(`frente`, `tras`, `tamanho` and slots); when `tamanho == 5` the first order ends with
`tamanho == 4` (the enqueue is rejected) and the second with `tamanho == 5`. -/
theorem enqueue_dequeue_commute (fila0 : FilaCircular) (ops : List Operacao) (p : Peca) :
    ∃ fila ps s, executar (inicializarFila fila0) ops = some (fila, ps, s) ∧
      (0 < fila.tamanho.val ∧ fila.tamanho.val < 5 →
        ∃ fila' q,
          executar fila [Operacao.enfileirar p, Operacao.desenfileirar] = some (fila', [q], []) ∧
          executar fila [Operacao.desenfileirar, Operacao.enfileirar p] = some (fila', [q], [])) ∧
      (fila.tamanho.val = 5 →
        ∃ fa qa sa fb qb sb,
          executar fila [Operacao.enfileirar p, Operacao.desenfileirar] = some (fa, [qa], sa) ∧
          executar fila [Operacao.desenfileirar, Operacao.enfileirar p] = some (fb, [qb], sb) ∧
          fa.tamanho.val = 4 ∧ fb.tamanho.val = 5) := by
  obtain ⟨hI0, hC0, _⟩ := inicializarFila_inv fila0
  obtain ⟨fila, ps, s, he, hI, hC, _, _⟩ := executar_refina ops _ hI0 hC0
  obtain ⟨⟨ht0, ht5⟩, ⟨hf0, hf5⟩, ⟨hr0, hr5⟩⟩ := hI
  unfold Consistente at hC
  have hnil : ∀ f : FilaCircular, executar f [] = some (f, [], []) := fun _ => rfl
  have hd := desenfileirar_ok fila
  have htm := CInt.val_sub_one (by omega : -2147483648 < fila.tamanho.val)
  have htp := CInt.val_add_one (by omega : fila.tamanho.val < 2147483647)
  refine ⟨fila, ps, s, he, ?_, ?_⟩
  · intro ⟨hpos, hlt⟩
    have h1 := enfileirar_ok fila p (by omega) hr0 hr5
    have h2 := desenfileirar_ok
      { elementos := Function.update fila.elementos (indice fila.tras) p,
        frente := fila.frente,
        tras := CInt.resto (fila.tras + 1) (CInt.ofInt CAPACIDADE_FILA),
        tamanho := fila.tamanho + 1 }
      (by show (fila.tamanho + 1).val ≠ 0; omega) hf0 hf5
    have h3 := desenfileirar_ok fila (by omega) hf0 hf5
    have h4 := enfileirar_ok
      { fila with
        frente := CInt.resto (fila.frente + 1) (CInt.ofInt CAPACIDADE_FILA),
        tamanho := fila.tamanho - 1 } p
      (by show (fila.tamanho - 1).val ≠ 5; omega) hr0 hr5
    have hne : indice fila.frente ≠ indice fila.tras := by
      intro hc
      have hv : fila.frente.val.toNat % 5 = fila.tras.val.toNat % 5 := congrArg Fin.val hc
      omega
    have hq : Function.update fila.elementos (indice fila.tras) p (indice fila.frente)
        = fila.elementos (indice fila.frente) := Function.update_noteq hne _ _
    have htam : (fila.tamanho - 1) + 1 = (fila.tamanho + 1) - 1 := by
      have e1 : ((fila.tamanho - 1) + 1).val = fila.tamanho.val := by
        rw [CInt.val_add_one (a := fila.tamanho - 1) (by omega), htm]; omega
      have e2 : ((fila.tamanho + 1) - 1).val = fila.tamanho.val := by
        rw [CInt.val_sub_one (a := fila.tamanho + 1) (by omega), htp]; omega
      exact CInt.eq_of_val (e1.trans e2.symm)
    refine ⟨{ elementos := Function.update fila.elementos (indice fila.tras) p,
              frente := CInt.resto (fila.frente + 1) (CInt.ofInt CAPACIDADE_FILA),
              tras := CInt.resto (fila.tras + 1) (CInt.ofInt CAPACIDADE_FILA),
              tamanho := (fila.tamanho + 1) - 1 },
            fila.elementos (indice fila.frente), ?_, ?_⟩
    · rw [executar_enfileirar _ _ _ _ _ h1, executar_desenfileirar _ _ _ _ _ h2, hnil]
      show some (_, [Function.update fila.elementos (indice fila.tras) p (indice fila.frente)],
        []) = _
      rw [hq]
    · rw [executar_desenfileirar _ _ _ _ _ h3, executar_enfileirar _ _ _ _ _ h4, hnil, ← htam]
      rfl
  · intro h5
    have h1 := enfileirar_cheia fila p h5
    have h2 := desenfileirar_ok fila (by omega) hf0 hf5
    have h4 := enfileirar_ok
      { fila with
        frente := CInt.resto (fila.frente + 1) (CInt.ofInt CAPACIDADE_FILA),
        tamanho := fila.tamanho - 1 } p
      (by show (fila.tamanho - 1).val ≠ 5; omega) hr0 hr5
    have ea : executar fila [Operacao.enfileirar p, Operacao.desenfileirar]
        = some ({ fila with
                  frente := CInt.resto (fila.frente + 1) (CInt.ofInt CAPACIDADE_FILA),
                  tamanho := fila.tamanho - 1 },
                [fila.elementos (indice fila.frente)], [Saida.erroFilaCheia]) := by
      rw [executar_enfileirar _ _ _ _ _ h1, executar_desenfileirar _ _ _ _ _ h2, hnil]
      rfl
    have eb : executar fila [Operacao.desenfileirar, Operacao.enfileirar p]
        = some ({ elementos := Function.update fila.elementos (indice fila.tras) p,
                  frente := CInt.resto (fila.frente + 1) (CInt.ofInt CAPACIDADE_FILA),
                  tras := CInt.resto (fila.tras + 1) (CInt.ofInt CAPACIDADE_FILA),
                  tamanho := (fila.tamanho - 1) + 1 },
                [fila.elementos (indice fila.frente)], []) := by
      rw [executar_desenfileirar _ _ _ _ _ h2, executar_enfileirar _ _ _ _ _ h4, hnil]
      rfl
    have ha : (fila.tamanho - 1).val = 4 := by omega
    have hb : ((fila.tamanho - 1) + 1).val = 5 := by
      rw [CInt.val_add_one (a := fila.tamanho - 1) (by omega)]; omega
    exact ⟨_, _, _, _, _, _, ea, eb, ha, hb⟩

/-- After two enqueues, a dequeue and an enqueue the queue holds two pieces, and the two
orders agree. -/
theorem enqueue_dequeue_commute_witness :
    ∃ fila ps s, executar (inicializarFila (filaBruta pecaNula)) operacoesExemplo
        = some (fila, ps, s) ∧
      (0 < fila.tamanho.val ∧ fila.tamanho.val < 5) ∧
      ∃ fila' q,
        executar fila [Operacao.enfileirar (pecaDe 9 "Z"), Operacao.desenfileirar]
          = some (fila', [q], []) ∧
        executar fila [Operacao.desenfileirar, Operacao.enfileirar (pecaDe 9 "Z")]
          = some (fila', [q], []) := by
  obtain ⟨fila, ps, s, he, h1, _⟩ :=
    enqueue_dequeue_commute (filaBruta pecaNula) operacoesExemplo (pecaDe 9 "Z")
  have h2 : (executar (inicializarFila (filaBruta pecaNula)) operacoesExemplo).map
      (fun x => x.1.tamanho.val) = some 2 := by decide
  rw [he, Option.map_some', Option.some.injEq] at h2
  have h3 : fila.tamanho.val = 2 := h2
  have hr : 0 < fila.tamanho.val ∧ fila.tamanho.val < 5 := by omega
  exact ⟨fila, ps, s, he, hr, h1 hr⟩

end Tetris
